import Mathlib

/-
Verification of the BaseballTrainer analysis pipeline.

Shallow embedding of the algorithmic core services of the repository:
  * blast-connector/services/swing_detection_service.py
      (payload parsing `try_parse`, the `SwingDetector` state machine)
  * pose-detection-service/services/contact_detector.py
  * pose-detection-service/services/swing_phase_detector.py
  * pose-detection-service/services/object_tracker.py
  * pose-detection-service/services/biomechanics_analyzer.py

Python floats are modelled as exact rationals (ℚ) except where a square
root or arctangent genuinely enters the data flow, in which case real
numbers (ℝ) are used.  Machine integers do not occur (Python ints are
unbounded).  External libraries (OpenCV KalmanFilter) are abstracted by
an operations record; scipy.signal.find_peaks is modelled explicitly by
its published algorithm since contact detection depends on it.
-/

namespace BaseballTrainer

/-! ## Generic helpers shared by several services -/

/-- Python `int(x)` on a rational: truncation toward zero. -/
def truncInt (q : ℚ) : ℤ := if 0 ≤ q then ⌊q⌋ else ⌈q⌉

/-- Append on a list acting as a `collections.deque(maxlen = cap)`:
append at the right, dropping the oldest (leftmost) element when full. -/
def dequeAppend (cap : ℕ) (l : List α) (x : α) : List α :=
  let l' := l ++ [x]
  if cap < l'.length then l'.drop (l'.length - cap) else l'

/-- Apply `f` to the element at index `i`, as the Python statement
`xs[i] = f(xs[i])`; out-of-range indices leave the list unchanged. -/
def listUpd (f : α → α) : ℕ → List α → List α
  | _, [] => []
  | 0, x :: xs => f x :: xs
  | n + 1, x :: xs => x :: listUpd f n xs

@[simp] theorem listUpd_nil (f : α → α) (i : ℕ) : listUpd f i [] = [] := by
  cases i <;> rfl

theorem map_listUpd (g : α → β) (f : α → α) (i : ℕ) (l : List α)
    (h : ∀ x, g (f x) = g x) : (listUpd f i l).map g = l.map g := by
  induction l generalizing i with
  | nil => simp
  | cons x xs ih =>
    cases i with
    | zero => simp [listUpd, h]
    | succ n => simp [listUpd, ih]

theorem length_listUpd (f : α → α) (i : ℕ) (l : List α) :
    (listUpd f i l).length = l.length := by
  induction l generalizing i with
  | nil => simp
  | cons x xs ih => cases i <;> simp [listUpd, ih]

/-! ## blast-connector/services/swing_detection_service.py : payload parsing

A BLE payload is a list of bytes (naturals below 256; the definitions use
the byte values as given and never need the bound). -/

namespace SwingDetectionService

/-- Reading of a 16-bit word (a value in `[0, 65536)`) as a signed 16-bit
integer, as the struct format character "h" does. -/
def toInt16 (w : ℕ) : ℤ := if 32768 ≤ w then (w : ℤ) - 65536 else (w : ℤ)

/-- Consecutive byte pairs as little-endian signed 16-bit words
(a trailing odd byte is ignored; callers guard against odd length). -/
def leWords : List ℕ → List ℤ
  | lo :: hi :: rest => toInt16 (lo + 256 * hi) :: leWords rest
  | _ => []

/-- Consecutive byte pairs as big-endian signed 16-bit words. -/
def beWords : List ℕ → List ℤ
  | hi :: lo :: rest => toInt16 (256 * hi + lo) :: beWords rest
  | _ => []

/-- The function `unpack_i16_le`: `None` on odd length, otherwise all
little-endian int16 words of the buffer.  (The `struct.unpack` call
cannot fail on a bytes object of even length, so the `except` branch of
the source is unreachable.) -/
def unpack_i16_le (buf : List ℕ) : Option (List ℤ) :=
  if buf.length % 2 ≠ 0 then none else some (leWords buf)

/-- The function `unpack_i16_be`, big-endian variant. -/
def unpack_i16_be (buf : List ℕ) : Option (List ℤ) :=
  if buf.length % 2 ≠ 0 then none else some (beWords buf)

/-- Parsed accelerometer/gyroscope sample in raw int16 units. -/
structure ImuSample where
  ax : ℤ
  ay : ℤ
  az : ℤ
  gx : ℤ
  gy : ℤ
  gz : ℤ
  deriving DecidableEq, Repr

/-- First six words of `v` as a sample, as the dict literal
`{"ax": v[0], ..., "gz": v[5]}` built by `try_parse`. -/
def sampleOfWords (v : List ℤ) : ImuSample :=
  ⟨v.getD 0 0, v.getD 1 0, v.getD 2 0, v.getD 3 0, v.getD 4 0, v.getD 5 0⟩

/-- One `try_parse` branch: Python `if v and len(v) >= 6` (a `None` or
empty tuple is falsy, so the length test subsumes truthiness). -/
def branchOfWords (o : Option (List ℤ)) : Option ImuSample :=
  match o with
  | some v => if 6 ≤ v.length then some (sampleOfWords v) else none
  | none => none

/-- The function `try_parse`: four decoding attempts in order —
little-endian, little-endian after a 1-byte header, big-endian, and a
gyro-only read of three little-endian words at byte offset 6
(`struct.unpack_from("<hhh", payload, 6)`, in range when the payload has
at least 12 bytes, which the source guards). -/
def try_parse (payload : List ℕ) : Option ImuSample :=
  match branchOfWords (unpack_i16_le payload) with
  | some s => some s
  | none =>
    match (if 13 ≤ payload.length then branchOfWords (unpack_i16_le (payload.drop 1)) else none) with
    | some s => some s
    | none =>
      match branchOfWords (unpack_i16_be payload) with
      | some s => some s
      | none =>
        if 12 ≤ payload.length then
          some ⟨0, 0, 0,
            toInt16 (payload.getD 6 0 + 256 * payload.getD 7 0),
            toInt16 (payload.getD 8 0 + 256 * payload.getD 9 0),
            toInt16 (payload.getD 10 0 + 256 * payload.getD 11 0)⟩
        else none

/-- Little-endian two-byte encoding of a signed 16-bit integer, the way a
synthetic test payload is produced (`struct.pack("<h", v)`). -/
def encodeI16LE (v : ℤ) : List ℕ :=
  [(v % 65536).toNat % 256, (v % 65536).toNat / 256]

/-- Twelve-byte payload of six little-endian int16 values. -/
def encodePayload (a b c d e f : ℤ) : List ℕ :=
  encodeI16LE a ++ encodeI16LE b ++ encodeI16LE c ++
    encodeI16LE d ++ encodeI16LE e ++ encodeI16LE f

theorem toInt16_emod (v : ℤ) (h₁ : -32768 ≤ v) (h₂ : v ≤ 32767) :
    toInt16 (v % 65536).toNat = v := by
  have h0 : 0 ≤ v % 65536 := Int.emod_nonneg v (by norm_num)
  have h1 : v % 65536 < 65536 := Int.emod_lt_of_pos v (by norm_num)
  unfold toInt16
  split <;> omega

theorem leWords_encode (v : ℤ) (rest : List ℕ) :
    leWords (encodeI16LE v ++ rest) = toInt16 (v % 65536).toNat :: leWords rest := by
  have h0 : 0 ≤ v % 65536 := Int.emod_nonneg v (by norm_num)
  simp only [encodeI16LE, List.cons_append, List.nil_append, leWords]
  rw [Nat.mod_add_div]
  simp

theorem length_encodePayload (a b c d e f : ℤ) :
    (encodePayload a b c d e f).length = 12 := by
  simp [encodePayload, encodeI16LE]

theorem leWords_encodePayload (a b c d e f : ℤ)
    (ha₁ : -32768 ≤ a) (ha₂ : a ≤ 32767) (hb₁ : -32768 ≤ b) (hb₂ : b ≤ 32767)
    (hc₁ : -32768 ≤ c) (hc₂ : c ≤ 32767) (hd₁ : -32768 ≤ d) (hd₂ : d ≤ 32767)
    (he₁ : -32768 ≤ e) (he₂ : e ≤ 32767) (hf₁ : -32768 ≤ f) (hf₂ : f ≤ 32767) :
    leWords (encodePayload a b c d e f) = [a, b, c, d, e, f] := by
  unfold encodePayload
  rw [← List.append_nil (encodeI16LE f)]
  simp only [List.append_assoc]
  rw [leWords_encode, leWords_encode, leWords_encode, leWords_encode,
    leWords_encode, leWords_encode,
    toInt16_emod a ha₁ ha₂, toInt16_emod b hb₁ hb₂, toInt16_emod c hc₁ hc₂,
    toInt16_emod d hd₁ hd₂, toInt16_emod e he₁ he₂, toInt16_emod f hf₁ hf₂]
  rfl

/-- C7: `try_parse` round-trips a 12-byte little-endian payload of six
signed 16-bit integers `(ax, ay, az, gx, gy, gz)` back to exactly those
six values. -/
theorem try_parse_roundtrip (a b c d e f : ℤ)
    (ha₁ : -32768 ≤ a) (ha₂ : a ≤ 32767) (hb₁ : -32768 ≤ b) (hb₂ : b ≤ 32767)
    (hc₁ : -32768 ≤ c) (hc₂ : c ≤ 32767) (hd₁ : -32768 ≤ d) (hd₂ : d ≤ 32767)
    (he₁ : -32768 ≤ e) (he₂ : e ≤ 32767) (hf₁ : -32768 ≤ f) (hf₂ : f ≤ 32767) :
    try_parse (encodePayload a b c d e f) = some ⟨a, b, c, d, e, f⟩ := by
  have hu : unpack_i16_le (encodePayload a b c d e f) = some [a, b, c, d, e, f] := by
    unfold unpack_i16_le
    rw [length_encodePayload,
      leWords_encodePayload a b c d e f ha₁ ha₂ hb₁ hb₂ hc₁ hc₂ hd₁ hd₂ he₁ he₂ hf₁ hf₂]
    simp
  unfold try_parse
  rw [hu]
  simp [branchOfWords, sampleOfWords]

/-- Witness for C7 at a concrete payload exercising sign extension and
both extreme int16 values. -/
theorem try_parse_roundtrip_witness :
    try_parse (encodePayload 1 (-1) 32767 (-32768) 0 12345) =
      some ⟨1, -1, 32767, -32768, 0, 12345⟩ :=
  try_parse_roundtrip 1 (-1) 32767 (-32768) 0 12345
    (by decide) (by decide) (by decide) (by decide) (by decide) (by decide)
    (by decide) (by decide) (by decide) (by decide) (by decide) (by decide)

/-! ### The SwingDetector threshold state machine

`FORCE_THRESHOLDS` is `True` in the source, so a fresh detector uses the
forced thresholds 90 / 45 dps. -/

def FORCED_START_DPS : ℚ := 90
def FORCED_STOP_DPS : ℚ := 45
def MIN_SWING_MS : ℤ := 100
def MAX_SWING_MS : ℤ := 1500

inductive SDPhase where
  | idle
  | inSwing
  deriving DecidableEq, Repr

/-- One invocation of the `on_swing_detected` callback.  The source also
derives `bat_speed_mph` from `omega_peak_dps` (a fixed multiple involving
π) and a constant `attack_angle_deg = 0.0`; those derived display fields
are omitted here. -/
structure SwingEvent where
  tStart : ℚ
  tPeak : ℚ
  tEnd : ℚ
  durationMs : ℤ
  omegaPeakDps : ℚ
  deriving DecidableEq, Repr

/-- Mutable state of a `SwingDetector`.  The `on_swing_detected` callback
is modelled by accumulating the emitted events in `events` (oldest
first).  The `samples` deque of the source is never written by `feed`
and is omitted. -/
structure SwingDetector where
  state : SDPhase
  tStart : Option ℚ
  peak : Option (ℚ × ℚ)
  srTick : List ℚ
  events : List SwingEvent
  startDps : ℚ
  stopDps : ℚ
  deriving Repr

/-- A freshly constructed detector (`state = "idle"`, forced thresholds). -/
def SwingDetector.init : SwingDetector :=
  ⟨.idle, none, none, [], [], FORCED_START_DPS, FORCED_STOP_DPS⟩

/-- The method `SwingDetector.feed`.  In the source `feed` receives the six
accelerometer/gyro components and uses them only through
`omega = (gx² + gy² + gz²) ** 0.5`; following the spec's "synthetic omega
sequence" wording, the embedding takes the scalar `omega` directly.
`fps_tick` only appends `t` to the `sr_tick` deque (its return value is
discarded by `feed`). -/
def SwingDetector.feed (d : SwingDetector) (t omega : ℚ) : SwingDetector :=
  let d := {d with srTick := dequeAppend 50 d.srTick t}
  if d.state = .idle then
    if d.startDps ≤ omega then
      {d with state := .inSwing, tStart := some t, peak := some (t, omega)}
    else d
  else
    let peak' :=
      match d.peak with
      | none => some (t, omega)
      | some p => if p.2 < omega then some (t, omega) else some p
    if omega ≤ d.stopDps then
      let durMs := truncInt ((t - d.tStart.getD 0) * 1000)
      let events' :=
        if MIN_SWING_MS ≤ durMs ∧ durMs ≤ MAX_SWING_MS then
          d.events ++ [⟨d.tStart.getD 0, (peak'.getD (0, 0)).1, t, durMs, (peak'.getD (0, 0)).2⟩]
        else d.events
      {d with state := .idle, peak := none, events := events'}
    else {d with peak := peak'}

/-- Feeding a whole sample sequence `(t, omega)` in order. -/
def SwingDetector.feedAll (d : SwingDetector) (samples : List (ℚ × ℚ)) : SwingDetector :=
  samples.foldl (fun s p => s.feed p.1 p.2) d

theorem SwingDetector.feed_idle_low (d : SwingDetector) (t omega : ℚ)
    (h : d.state = .idle) (hw : omega < d.startDps) :
    d.feed t omega = {d with srTick := dequeAppend 50 d.srTick t} := by
  simp [feed, h, not_le.mpr hw]

theorem SwingDetector.feed_idle_rise (d : SwingDetector) (t omega : ℚ)
    (h : d.state = .idle) (hw : d.startDps ≤ omega) :
    d.feed t omega = {d with srTick := dequeAppend 50 d.srTick t, state := .inSwing, tStart := some t, peak := some (t, omega)} := by
  simp [feed, h, hw]

theorem SwingDetector.feedAll_idle (d : SwingDetector) (pre : List (ℚ × ℚ))
    (h : d.state = .idle) (hw : ∀ p ∈ pre, p.2 < d.startDps) :
    (d.feedAll pre).state = .idle ∧ (d.feedAll pre).events = d.events ∧
      (d.feedAll pre).tStart = d.tStart ∧ (d.feedAll pre).peak = d.peak ∧
      (d.feedAll pre).startDps = d.startDps ∧ (d.feedAll pre).stopDps = d.stopDps := by
  induction pre generalizing d with
  | nil => exact ⟨h, rfl, rfl, rfl, rfl, rfl⟩
  | cons p rest ih =>
    have hfeed := SwingDetector.feed_idle_low d p.1 p.2 h (hw p (by simp))
    have hstep : d.feedAll (p :: rest) = (d.feed p.1 p.2).feedAll rest := by
      simp [feedAll]
    rw [hstep, hfeed]
    exact ih _ h (fun q hq => hw q (by simp [hq]))

theorem SwingDetector.feed_inswing_continue (d : SwingDetector) (t omega : ℚ)
    (h : d.state = .inSwing) (hw : d.stopDps < omega) :
    (d.feed t omega).state = .inSwing ∧ (d.feed t omega).events = d.events ∧
      (d.feed t omega).tStart = d.tStart ∧
      (d.feed t omega).startDps = d.startDps ∧ (d.feed t omega).stopDps = d.stopDps := by
  simp only [feed, h]
  simp [not_le.mpr hw]

theorem SwingDetector.feedAll_inswing (d : SwingDetector) (mid : List (ℚ × ℚ))
    (h : d.state = .inSwing) (hw : ∀ p ∈ mid, d.stopDps < p.2) :
    (d.feedAll mid).state = .inSwing ∧ (d.feedAll mid).events = d.events ∧
      (d.feedAll mid).tStart = d.tStart ∧
      (d.feedAll mid).startDps = d.startDps ∧ (d.feedAll mid).stopDps = d.stopDps := by
  induction mid generalizing d with
  | nil => exact ⟨h, rfl, rfl, rfl, rfl⟩
  | cons p rest ih =>
    have hfeed := SwingDetector.feed_inswing_continue d p.1 p.2 h (hw p (by simp))
    have hstep : d.feedAll (p :: rest) = (d.feed p.1 p.2).feedAll rest := by
      simp [feedAll]
    rw [hstep]
    obtain ⟨h1, h2, h3, h4, h5⟩ := hfeed
    obtain ⟨g1, g2, g3, g4, g5⟩ := ih (d.feed p.1 p.2) h1
      (fun q hq => h5 ▸ hw q (by simp [hq]))
    exact ⟨g1, g2.trans h2, g3.trans h3, g4.trans h4, g5.trans h5⟩

theorem SwingDetector.feed_inswing_stop (d : SwingDetector) (t omega : ℚ)
    (h : d.state = .inSwing) (hw : omega ≤ d.stopDps)
    (h1 : MIN_SWING_MS ≤ truncInt ((t - d.tStart.getD 0) * 1000))
    (h2 : truncInt ((t - d.tStart.getD 0) * 1000) ≤ MAX_SWING_MS) :
    (d.feed t omega).state = .idle ∧
      ∃ ev : SwingEvent, (d.feed t omega).events = d.events ++ [ev] ∧
        ev.durationMs = truncInt ((t - d.tStart.getD 0) * 1000) := by
  simp only [feed, h]
  simp [hw, h1, h2]

/-- C6 (amended): starting idle, if omega stays below `start_dps` (90, the
forced threshold), then rises to at least 90, stays above `stop_dps` (45)
for the middle samples, and falls to at most 45 between 100 ms and 300 ms
after the rise, then `feed` emits the `on_swing_detected` callback exactly
once for the excursion, with `duration_ms` between `MIN_SWING_MS` (100)
and `MAX_SWING_MS` (1500), and the detector returns to the idle state.
(The original claim allowed any fall within 300 ms; a fall earlier than
`MIN_SWING_MS` after the rise emits no event, see the counterexample.) -/
theorem SwingDetector_single_excursion (pre mid : List (ℚ × ℚ)) (tr wr tf wf : ℚ)
    (hpre : ∀ p ∈ pre, p.2 < FORCED_START_DPS)
    (hr : FORCED_START_DPS ≤ wr)
    (hmid : ∀ p ∈ mid, FORCED_STOP_DPS < p.2)
    (hfall : wf ≤ FORCED_STOP_DPS)
    (hlo : 1/10 ≤ tf - tr) (hhi : tf - tr ≤ 3/10) :
    (SwingDetector.init.feedAll (pre ++ (tr, wr) :: mid ++ [(tf, wf)])).events.length = 1 ∧
      (SwingDetector.init.feedAll (pre ++ (tr, wr) :: mid ++ [(tf, wf)])).state = .idle ∧
      ∀ e ∈ (SwingDetector.init.feedAll (pre ++ (tr, wr) :: mid ++ [(tf, wf)])).events,
        MIN_SWING_MS ≤ e.durationMs ∧ e.durationMs ≤ MAX_SWING_MS := by
  have hsplit : SwingDetector.init.feedAll (pre ++ (tr, wr) :: mid ++ [(tf, wf)]) =
      (((SwingDetector.init.feedAll pre).feed tr wr).feedAll mid).feed tf wf := by
    simp [SwingDetector.feedAll, List.foldl_append]
  obtain ⟨p1, p2, p3, p4, p5, p6⟩ :=
    SwingDetector.init.feedAll_idle pre rfl (fun p hp => by
      simpa using hpre p hp)
  have hrise := (SwingDetector.init.feedAll pre).feed_idle_rise tr wr p1 (p5 ▸ hr)
  obtain ⟨q1, q2, q3, q4, q5⟩ :=
    ((SwingDetector.init.feedAll pre).feed tr wr).feedAll_inswing mid
      (by rw [hrise]) (fun p hp => by
        rw [hrise]
        show (SwingDetector.init.feedAll pre).stopDps < p.2
        rw [p6]
        exact hmid p hp)
  have hts : ((((SwingDetector.init.feedAll pre).feed tr wr).feedAll mid).tStart.getD 0) = tr := by
    rw [q3, hrise]
    rfl
  have hstop5 : (((SwingDetector.init.feedAll pre).feed tr wr).feedAll mid).stopDps
      = FORCED_STOP_DPS := by
    rw [q5, hrise]
    show (SwingDetector.init.feedAll pre).stopDps = FORCED_STOP_DPS
    rw [p6]
    rfl
  have hq : (100 : ℚ) ≤ (tf - tr) * 1000 := by linarith
  have hq' : (tf - tr) * 1000 ≤ 300 := by linarith
  have htr : truncInt ((tf - tr) * 1000) = ⌊(tf - tr) * 1000⌋ := by
    unfold truncInt
    rw [if_pos (by linarith)]
  have hd1 : MIN_SWING_MS ≤ truncInt ((tf - tr) * 1000) := by
    rw [htr]
    exact Int.le_floor.mpr (by exact_mod_cast hq)
  have hd2 : truncInt ((tf - tr) * 1000) ≤ MAX_SWING_MS := by
    rw [htr]
    have h300 : ⌊(tf - tr) * 1000⌋ ≤ 300 := by
      have hc : (⌊(tf - tr) * 1000⌋ : ℚ) ≤ 300 := le_trans (Int.floor_le _) hq'
      exact_mod_cast hc
    unfold MAX_SWING_MS
    omega
  obtain ⟨r1, ev, r2, r3⟩ :=
    ((((SwingDetector.init.feedAll pre).feed tr wr).feedAll mid)).feed_inswing_stop tf wf
      q1 (hstop5 ▸ hfall) (by rw [hts]; exact hd1) (by rw [hts]; exact hd2)
  have hev : ((((SwingDetector.init.feedAll pre).feed tr wr).feedAll mid).feed tf wf).events
      = [ev] := by
    rw [r2, q2, hrise]
    show (SwingDetector.init.feedAll pre).events ++ [ev] = [ev]
    rw [p2]
    rfl
  rw [hsplit]
  refine ⟨by rw [hev]; rfl, r1, ?_⟩
  intro e he
  rw [hev] at he
  have : e = ev := by simpa using he
  subst this
  rw [r3, hts]
  exact ⟨hd1, hd2⟩

/-- Counterexample to C6 as stated: an excursion that rises to 100 dps
(≥ 90) and falls to 0 dps (≤ 45) only 50 ms later is "within 300 ms of
the rise", yet no swing event is emitted, because the duration is below
`MIN_SWING_MS = 100`. -/
theorem SwingDetector_short_excursion_no_event :
    FORCED_START_DPS ≤ 100 ∧ (0 : ℚ) ≤ FORCED_STOP_DPS ∧ ((1/20 : ℚ) - 0 ≤ 3/10) ∧
      ((SwingDetector.init.feed 0 100).feed (1/20) 0).events = [] ∧
      ((SwingDetector.init.feed 0 100).feed (1/20) 0).state = .idle := by
  refine ⟨by norm_num [FORCED_START_DPS], by norm_num [FORCED_STOP_DPS], by norm_num, ?_, ?_⟩ <;>
    · norm_num [SwingDetector.feed, SwingDetector.init, dequeAppend, truncInt,
        FORCED_START_DPS, FORCED_STOP_DPS, MIN_SWING_MS, MAX_SWING_MS]
      rw [if_neg (by decide)]

/-- Witness for the amended C6 at a concrete four-sample run. -/
theorem SwingDetector_single_excursion_witness :
    (SwingDetector.init.feedAll
        ([(0, 10)] ++ (1, 100) :: [(11/10, 200)] ++ [(6/5, 0)])).events.length = 1 ∧
      (SwingDetector.init.feedAll
        ([(0, 10)] ++ (1, 100) :: [(11/10, 200)] ++ [(6/5, 0)])).state = .idle ∧
      ∀ e ∈ (SwingDetector.init.feedAll
        ([(0, 10)] ++ (1, 100) :: [(11/10, 200)] ++ [(6/5, 0)])).events,
        MIN_SWING_MS ≤ e.durationMs ∧ e.durationMs ≤ MAX_SWING_MS :=
  SwingDetector_single_excursion [(0, 10)] [(11/10, 200)] 1 100 (6/5) 0
    (by intro p hp; rw [List.mem_singleton] at hp; subst hp; norm_num [FORCED_START_DPS])
    (by norm_num [FORCED_START_DPS])
    (by intro p hp; rw [List.mem_singleton] at hp; subst hp; norm_num [FORCED_STOP_DPS])
    (by norm_num [FORCED_STOP_DPS])
    (by norm_num) (by norm_num)

end SwingDetectionService

/-! ## pose-detection-service/services/contact_detector.py -/

namespace ContactDetector

/-- Wrap-around normalization of a frame-to-frame angle difference into
(−180, 180] ∪ the unchanged value, exactly the two-branch adjustment of
the source (a single ±360 correction). -/
def wrapDiff (d : ℚ) : ℚ := if d > 180 then d - 360 else if d < -180 then d + 360 else d

/-- Loop body of `_calculate_angular_velocity`: for consecutive angle
pairs, the absolute wrapped difference divided by `dt`. -/
def velList (dt : ℚ) : List ℚ → List ℚ
  | a :: b :: rest => |wrapDiff (b - a) / dt| :: velList dt (b :: rest)
  | _ => []

/-- The method `_calculate_angular_velocity`. -/
def _calculate_angular_velocity (angles : List ℚ) (fps : ℚ) : List ℚ :=
  if angles.length < 2 then [0]
  else
    let dt := if 0 < fps then 1 / fps else 1
    0 :: velList dt angles

/-! ### Model of scipy.signal.find_peaks (external library, but contact
detection depends on its behaviour, so its published algorithm for the
`height` and `distance` arguments is embedded). -/

/-- Plateau scan of scipy's `_local_maxima_1d`: the first index `j ≥ j₀`
with `j = iMax` or `x[j] ≠ v`. -/
def plateauEnd (x : List ℚ) (v : ℚ) (iMax : ℕ) (j : ℕ) : ℕ :=
  if j < iMax ∧ x.getD j 0 = v then plateauEnd x v iMax (j + 1) else j
termination_by iMax - j
decreasing_by omega

theorem plateauEnd_ge (x : List ℚ) (v : ℚ) (iMax j : ℕ) :
    j ≤ plateauEnd x v iMax j := by
  unfold plateauEnd
  split
  · have := plateauEnd_ge x v iMax (j + 1)
    omega
  · exact le_refl j
termination_by iMax - j
decreasing_by omega

/-- Main scan of scipy's `_local_maxima_1d`: midpoints of strict local
maxima (plateaus allowed), scanning `i` from 1 to `iMax − 1` where
`iMax = length − 1`. -/
def lmAux (x : List ℚ) (iMax : ℕ) (i : ℕ) : List ℕ :=
  if i < iMax then
    if x.getD (i - 1) 0 < x.getD i 0 then
      let ia := plateauEnd x (x.getD i 0) iMax (i + 1)
      if x.getD ia 0 < x.getD i 0 then
        ((i + ia - 1) / 2) :: lmAux x iMax (ia + 1)
      else lmAux x iMax (i + 1)
    else lmAux x iMax (i + 1)
  else []
termination_by iMax - i
decreasing_by
  · have := plateauEnd_ge x (x.getD i 0) iMax (i + 1)
    omega
  · omega
  · omega

/-- Local maxima (with plateau midpoints) of a sequence. -/
def localMaxima (x : List ℚ) : List ℕ := lmAux x (x.length - 1) 1

/-- Leftward inner while-loop of scipy's `_select_by_peak_distance`:
starting at index `k`, clear `keep` while the peak distance to `pj` is
below `dist`, stopping at the first index far enough away. -/
def clearLeft (peaks : List ℕ) (dist : ℕ) (pj : ℕ) : ℕ → List Bool → List Bool
  | k, keep =>
    if ((pj : ℤ) - (peaks.getD k 0 : ℤ)) < dist then
      let keep' := listUpd (fun _ => false) k keep
      match k with
      | 0 => keep'
      | k' + 1 => clearLeft peaks dist pj k' keep'
    else keep

/-- Rightward inner while-loop of `_select_by_peak_distance`; the first
argument is the remaining iteration budget `n − k`, so that the loop
stops exactly when `k` reaches the number of peaks `n`. -/
def clearRight (peaks : List ℕ) (dist : ℕ) (pj : ℕ) : ℕ → ℕ → List Bool → List Bool
  | 0, _, keep => keep
  | fuel + 1, k, keep =>
    if ((peaks.getD k 0 : ℤ) - (pj : ℤ)) < dist then
      clearRight peaks dist pj fuel (k + 1) (listUpd (fun _ => false) k keep)
    else keep

/-- Stable ascending insertion (ties keep the earlier element first). -/
def insAsc (x : ℚ × ℕ) : List (ℚ × ℕ) → List (ℚ × ℕ)
  | [] => [x]
  | y :: ys => if x.1 ≤ y.1 then x :: y :: ys else y :: insAsc x ys

/-- Stable ascending insertion sort, modelling `np.argsort` keys. -/
def sortAsc : List (ℚ × ℕ) → List (ℚ × ℕ)
  | [] => []
  | x :: xs => insAsc x (sortAsc xs)

/-- Indices of `vals` in ascending order of value (`np.argsort`; its
tie order is implementation-defined, fixed here as the stable one —
the theorems below only reach the single-peak case, where no tie can
occur). -/
def argsortAsc (vals : List ℚ) : List ℕ :=
  (sortAsc (vals.enum.map (fun p => (p.2, p.1)))).map (fun p => p.2)

/-- Outer loop of `_select_by_peak_distance`, iterating indices in
descending priority (highest peak first). -/
def distLoop (peaks : List ℕ) (dist : ℕ) : List ℕ → List Bool → List Bool
  | [], keep => keep
  | j :: rest, keep =>
    if keep.getD j true then
      let keep1 := if j = 0 then keep else clearLeft peaks dist (peaks.getD j 0) (j - 1) keep
      let keep2 := clearRight peaks dist (peaks.getD j 0) (peaks.length - (j + 1)) (j + 1) keep1
      distLoop peaks dist rest keep2
    else distLoop peaks dist rest keep

/-- scipy's `_select_by_peak_distance`. -/
def selectByPeakDistance (peaks : List ℕ) (heights : List ℚ) (dist : ℕ) : List Bool :=
  distLoop peaks dist (argsortAsc heights).reverse (List.replicate peaks.length true)

/-- Model of `scipy.signal.find_peaks(x, height=hmin, distance=dist)`:
local maxima, filtered by minimal height, then by minimal distance. -/
def find_peaks (x : List ℚ) (hmin : ℚ) (dist : ℕ) : List ℕ :=
  let peaks := localMaxima x
  let peaks1 := peaks.filter (fun p => hmin ≤ x.getD p 0)
  let keep := selectByPeakDistance peaks1 (peaks1.map (fun p => x.getD p 0)) dist
  (peaks1.enum.filter (fun p => keep.getD p.1 true)).map (fun p => p.2)

/-- Maximum of a nonempty list (`np.max`; callers guard emptiness). -/
def listMax : List ℚ → ℚ
  | [] => 0
  | v :: r => r.foldl max v

/-- The helper loop of `np.argmax`: first index of the maximum value. -/
def argmaxAux : List ℚ → ℕ → ℕ → ℚ → ℕ
  | [], _, b, _ => b
  | v :: r, i, b, bv => if bv < v then argmaxAux r (i + 1) i v else argmaxAux r (i + 1) b bv

/-- Index of the first maximal element (`np.argmax`). -/
def argmaxQ : List ℚ → ℕ
  | [] => 0
  | v :: r => argmaxAux r 1 0 v

/-- The method `_find_peak_velocity`.  The try/except around `find_peaks`
cannot fire on a nonempty velocity list, so the except branch is dead. -/
def _find_peak_velocity (velocities : List ℚ) : Option ℕ :=
  if velocities = [] then none
  else
    let peaks := find_peaks velocities (listMax velocities * (1/2)) 5
    if peaks ≠ [] then
      some (peaks.getD (argmaxQ (peaks.map (fun p => velocities.getD p 0))) 0)
    else
      let mi := argmaxQ velocities
      if 0 < velocities.getD mi 0 then some mi else none

/-- Per-frame ball detection record as consumed here (`center`,
`velocity` keys; a present dict is truthy). -/
structure BallDet where
  center : Option (ℚ × ℚ)
  velocity : Option ℚ

/-- Result of `_check_proximity`.  The source stores the euclidean
`distance = sqrt(dist2)`; the squared distance is stored here and the
square root is taken where the value is used, and the boolean
`within_threshold` (`distance <= threshold`) is expressed equivalently as
`0 ≤ threshold ∧ dist2 ≤ threshold²`. -/
structure ProxInfo where
  dist2 : ℚ
  within : Bool

/-- The method `_check_proximity`. -/
def _check_proximity (proximityThreshold : ℚ) (frame : ℕ)
    (batPositions : List (Option (ℚ × ℚ))) (ballPositions : List (Option BallDet)) :
    Option ProxInfo :=
  if batPositions.length ≤ frame ∨ ballPositions.length ≤ frame then none
  else
    match batPositions.getD frame none, ballPositions.getD frame none with
    | some bp, some bd =>
      match bd.center with
      | some c =>
        let d2 := (bp.1 - c.1) ^ 2 + (bp.2 - c.2) ^ 2
        some ⟨d2, decide (0 ≤ proximityThreshold ∧ d2 ≤ proximityThreshold ^ 2)⟩
      | none => none
    | _, _ => none

/-- The method `_check_velocity_change`: averaged ball speeds over up to
three frames before and after the candidate frame include only frames
with a present detection (missing `velocity` keys default to 0). -/
def _check_velocity_change (velocityThreshold : ℚ) (frame : ℕ)
    (ballPositions : List (Option BallDet)) : Option ℚ :=
  if (ballPositions.length : ℤ) - 1 ≤ (frame : ℤ) then none
  else
    let prevVals := (List.range' (frame - 3) (frame - (frame - 3))).filterMap
      (fun i => (ballPositions.getD i none).map (fun bd => bd.velocity.getD 0))
    let postVals := (List.range' (frame + 1) (min ballPositions.length (frame + 4) - (frame + 1))).filterMap
      (fun i => (ballPositions.getD i none).map (fun bd => bd.velocity.getD 0))
    let prevVelocity := if prevVals = [] then 0 else prevVals.sum / prevVals.length
    let postVelocity := if postVals = [] then 0 else postVals.sum / postVals.length
    let velocityChange := postVelocity - prevVelocity
    if velocityThreshold ≤ |velocityChange| then some velocityChange else none

/-- The method `_calculate_confidence` over the reals (the stored
distance is `sqrt(dist2)`). -/
noncomputable def _calculate_confidence (proximityThreshold velocityThreshold : ℚ)
    (angularVelocity : ℚ) (prox : Option ProxInfo) (velChange : Option ℚ) : ℝ :=
  let c0 : ℝ := 0
  let c1 := if 0 < angularVelocity then c0 + min 1 ((angularVelocity : ℝ) / 50) * (2/5) else c0
  let c2 :=
    match prox with
    | some p =>
      if p.within then
        c1 + (1 - min 1 (Real.sqrt (p.dist2 : ℝ) / (proximityThreshold : ℝ))) * (2/5)
      else c1 + 1/10
    | none => c1
  let c3 :=
    match velChange with
    | some vc => if 0 < vc then c2 + min 1 ((vc : ℝ) / ((velocityThreshold : ℝ) * 2)) * (1/5) else c2
    | none => c2
  min 1 c3

/-- Contact result dict returned by `detect_contact`. -/
structure ContactResult where
  frame : ℕ
  confidence : ℝ
  angularVelocity : ℚ
  proximity : Option ℝ
  velocityChange : Option ℚ
  timestamp : ℚ

/-- The method `detect_contact` (the `if not bat_angles or len < 3`
guard collapses to the length test). -/
noncomputable def detect_contact (proximityThreshold velocityThreshold : ℚ)
    (batAngles : List ℚ) (batPositions : List (Option (ℚ × ℚ)))
    (ballPositions : List (Option BallDet)) (fps : ℚ) : Option ContactResult :=
  if batAngles.length < 3 then none
  else
    let angularVelocities := _calculate_angular_velocity batAngles fps
    match _find_peak_velocity angularVelocities with
    | none => none
    | some peakFrame =>
      let prox := _check_proximity proximityThreshold peakFrame batPositions ballPositions
      let velChange := _check_velocity_change velocityThreshold peakFrame ballPositions
      let conf := _calculate_confidence proximityThreshold velocityThreshold
        (angularVelocities.getD peakFrame 0) prox velChange
      if 3/10 < conf then
        some ⟨peakFrame, conf, angularVelocities.getD peakFrame 0,
          prox.map (fun p => Real.sqrt (p.dist2 : ℝ)), velChange,
          if 0 < fps then peakFrame / fps else 0⟩
      else none

/-! ### C4: the angular-velocity formula -/

/-- The angular-velocity sequence exactly as the claim words it: the
wrapped frame-to-frame difference divided by `1/fps` (no absolute
value), with velocity 0 at frame 0. -/
def claimAngularVelocity (angles : List ℚ) (fps : ℚ) : List ℚ :=
  (List.range angles.length).map fun i =>
    if i = 0 then 0 else wrapDiff (angles.getD i 0 - angles.getD (i - 1) 0) / (1 / fps)

/-- The claim's formula amended with the absolute value the source
applies (`velocities.append(abs(velocity))`). -/
def specAngularVelocity (angles : List ℚ) (fps : ℚ) : List ℚ :=
  (List.range angles.length).map fun i =>
    if i = 0 then 0 else |wrapDiff (angles.getD i 0 - angles.getD (i - 1) 0) / (1 / fps)|

theorem velList_length (dt : ℚ) (l : List ℚ) : (velList dt l).length = l.length - 1 := by
  induction l with
  | nil => rfl
  | cons a t ih =>
    cases t with
    | nil => rfl
    | cons b r =>
      simp only [velList, List.length_cons] at *
      omega

theorem velList_getD (dt : ℚ) (l : List ℚ) (i : ℕ) (h : i + 1 < l.length) :
    (velList dt l).getD i 0 = |wrapDiff (l.getD (i + 1) 0 - l.getD i 0) / dt| := by
  induction l generalizing i with
  | nil => simp at h
  | cons a t ih =>
    cases t with
    | nil => simp at h
    | cons b r =>
      cases i with
      | zero => rfl
      | succ n =>
        have hn : n + 1 < (b :: r).length := by
          simp only [List.length_cons] at h ⊢
          omega
        simpa [velList] using ih n hn

/-- Counterexample to C4 as stated: for angles `[10, 0]` at `fps = 1`
the source computes velocity `10` at frame 1 (absolute value of −10),
while the claim's formula (wrapped difference divided by `1/fps`,
without absolute value) gives `−10`. -/
theorem angular_velocity_claim_counterexample :
    _calculate_angular_velocity [10, 0] 1 = [0, 10] ∧
      claimAngularVelocity [10, 0] 1 = [0, -10] ∧
      _calculate_angular_velocity [10, 0] 1 ≠ claimAngularVelocity [10, 0] 1 := by
  refine ⟨?_, ?_, ?_⟩
  · norm_num [_calculate_angular_velocity, velList, wrapDiff]
  · norm_num [claimAngularVelocity, wrapDiff, List.range_succ]
  · norm_num [_calculate_angular_velocity, claimAngularVelocity, velList, wrapDiff,
      List.range_succ]

/-- C4 (amended): for at least two bat angles and `fps > 0`,
`_calculate_angular_velocity` returns 0 at frame 0 and, at each frame
`i ≥ 1`, the absolute value of the wrap-normalized difference
`angles[i] − angles[i−1]` divided by `1/fps` (the claim as stated omits
the absolute value, see the counterexample). -/
theorem calculate_angular_velocity_correct (angles : List ℚ) (fps : ℚ)
    (hlen : 2 ≤ angles.length) (hfps : 0 < fps) :
    _calculate_angular_velocity angles fps = specAngularVelocity angles fps := by
  unfold _calculate_angular_velocity specAngularVelocity
  rw [if_neg (by omega)]
  simp only [if_pos hfps]
  apply List.ext_getElem
  · simp only [List.length_cons, velList_length, List.length_map, List.length_range]
    omega
  · intro i h1 h2
    simp only [List.getElem_map, List.getElem_range]
    cases i with
    | zero => simp
    | succ n =>
      rw [if_neg (by omega)]
      have hlen2 : n < (velList (1 / fps) angles).length := by
        simp only [List.length_cons] at h1
        omega
      have hn1 : n + 1 < angles.length := by
        rw [velList_length] at hlen2
        omega
      calc (0 :: velList (1 / fps) angles)[n + 1]
          = (velList (1 / fps) angles)[n] := by simp
        _ = (velList (1 / fps) angles).getD n 0 := (List.getD_eq_getElem _ _ hlen2).symm
        _ = |wrapDiff (angles.getD (n + 1) 0 - angles.getD n 0) / (1 / fps)| :=
            velList_getD (1 / fps) angles n hn1
        _ = |wrapDiff (angles.getD (n + 1) 0 - angles.getD (n + 1 - 1) 0) / (1 / fps)| := by
            norm_num

/-- Witness for the amended C4 at a concrete angle list crossing the
±180° wrap. -/
theorem calculate_angular_velocity_correct_witness :
    _calculate_angular_velocity [170, -170, -150] 30 =
      specAngularVelocity [170, -170, -150] 30 :=
  calculate_angular_velocity_correct [170, -170, -150] 30 (by decide) (by norm_num)

/-! ### C10: short inputs return None -/

/-- C10: with fewer than 3 bat angles (including the empty list),
`detect_contact` returns `None` whatever the other arguments are. -/
theorem detect_contact_short_input_none (pt vt : ℚ) (angles : List ℚ)
    (bp : List (Option (ℚ × ℚ))) (ball : List (Option BallDet)) (fps : ℚ)
    (h : angles.length < 3) :
    detect_contact pt vt angles bp ball fps = none := by
  unfold detect_contact
  rw [if_pos h]

/-- Witness for C10 on empty inputs. -/
theorem detect_contact_short_input_none_witness :
    detect_contact 50 5 [] [] [] 30 = none :=
  detect_contact_short_input_none 50 5 [] [] [] 30 (by decide)

/-! ### C5: peak finding on a single-peak velocity profile -/

theorem plateauEnd_stop (x : List ℚ) (v : ℚ) (iMax j : ℕ)
    (h : ¬(j < iMax ∧ x.getD j 0 = v)) : plateauEnd x v iMax j = j := by
  rw [plateauEnd, if_neg h]

theorem lmAux_descent (x : List ℚ) (p : ℕ)
    (hdec : ∀ i, p ≤ i → i + 1 < x.length → x.getD (i + 1) 0 < x.getD i 0) :
    ∀ i, p < i → lmAux x (x.length - 1) i = [] := by
  have key : ∀ d i, (x.length - 1) - i ≤ d → p < i → lmAux x (x.length - 1) i = [] := by
    intro d
    induction d with
    | zero =>
      intro i hd _
      rw [lmAux, if_neg (by omega)]
    | succ k ih =>
      intro i hd hp
      rw [lmAux]
      by_cases hlt : i < x.length - 1
      · rw [if_pos hlt]
        have hi1 : 1 ≤ i := by omega
        have hstep : x.getD ((i - 1) + 1) 0 < x.getD (i - 1) 0 :=
          hdec (i - 1) (by omega) (by omega)
        rw [show i - 1 + 1 = i by omega] at hstep
        rw [if_neg (not_lt.mpr (le_of_lt hstep))]
        exact ih (i + 1) (by omega) (by omega)
      · rw [if_neg hlt]
  exact fun i hi => key ((x.length - 1) - i) i (le_refl _) hi

theorem lmAux_at_peak (x : List ℚ) (p : ℕ)
    (hp0 : 0 < p) (hpn : p + 1 < x.length)
    (hinc : ∀ i < p, x.getD i 0 < x.getD (i + 1) 0)
    (hdec : ∀ i, p ≤ i → i + 1 < x.length → x.getD (i + 1) 0 < x.getD i 0) :
    lmAux x (x.length - 1) p = [p] := by
  rw [lmAux, if_pos (by omega)]
  have h1 : x.getD (p - 1) 0 < x.getD p 0 := by
    have := hinc (p - 1) (by omega)
    rwa [show p - 1 + 1 = p by omega] at this
  rw [if_pos h1]
  have hia : plateauEnd x (x.getD p 0) (x.length - 1) (p + 1) = p + 1 := by
    apply plateauEnd_stop
    rintro ⟨_, heq⟩
    have := hdec p (le_refl p) hpn
    rw [heq] at this
    exact lt_irrefl _ this
  rw [hia]
  have h2 : x.getD (p + 1) 0 < x.getD p 0 := hdec p (le_refl p) hpn
  rw [if_pos h2, show p + (p + 1) - 1 = 2 * p by omega, Nat.mul_div_cancel_left p (by norm_num),
    lmAux_descent x p hdec (p + 2) (by omega)]

theorem lmAux_ascent (x : List ℚ) (p : ℕ)
    (hp0 : 0 < p) (hpn : p + 1 < x.length)
    (hinc : ∀ i < p, x.getD i 0 < x.getD (i + 1) 0)
    (hdec : ∀ i, p ≤ i → i + 1 < x.length → x.getD (i + 1) 0 < x.getD i 0) :
    ∀ i, 0 < i → i ≤ p → lmAux x (x.length - 1) i = [p] := by
  have key : ∀ d i, p - i ≤ d → 0 < i → i ≤ p → lmAux x (x.length - 1) i = [p] := by
    intro d
    induction d with
    | zero =>
      intro i hd h0 hip
      rw [show i = p by omega]
      exact lmAux_at_peak x p hp0 hpn hinc hdec
    | succ k ih =>
      intro i hd h0 hip
      by_cases hpeq : i = p
      · rw [hpeq]
        exact lmAux_at_peak x p hp0 hpn hinc hdec
      · have hilt : i < p := by omega
        rw [lmAux, if_pos (by omega)]
        have h1 : x.getD (i - 1) 0 < x.getD i 0 := by
          have := hinc (i - 1) (by omega)
          rwa [show i - 1 + 1 = i by omega] at this
        rw [if_pos h1]
        have hia : plateauEnd x (x.getD i 0) (x.length - 1) (i + 1) = i + 1 := by
          apply plateauEnd_stop
          rintro ⟨_, heq⟩
          have := hinc i hilt
          rw [heq] at this
          exact lt_irrefl _ this
        rw [hia, if_neg (not_lt.mpr (le_of_lt (hinc i hilt)))]
        exact ih (i + 1) (by omega) (by omega) (by omega)
  exact fun i h0 hip => key (p - i) i (le_refl _) h0 hip

theorem localMaxima_single_peak (x : List ℚ) (p : ℕ)
    (hp0 : 0 < p) (hpn : p + 1 < x.length)
    (hinc : ∀ i < p, x.getD i 0 < x.getD (i + 1) 0)
    (hdec : ∀ i, p ≤ i → i + 1 < x.length → x.getD (i + 1) 0 < x.getD i 0) :
    localMaxima x = [p] :=
  lmAux_ascent x p hp0 hpn hinc hdec 1 (by omega) (by omega)

theorem foldl_max_init_le (l : List ℚ) (a : ℚ) : a ≤ l.foldl max a := by
  induction l generalizing a with
  | nil => simp
  | cons b t ih => exact le_trans (le_max_left a b) (ih (max a b))

theorem foldl_max_mem_le (l : List ℚ) (a x : ℚ) (hx : x ∈ l) : x ≤ l.foldl max a := by
  induction l generalizing a with
  | nil => simp at hx
  | cons b t ih =>
    rcases List.mem_cons.mp hx with h | h
    · subst h
      exact le_trans (le_max_right a x) (foldl_max_init_le t _)
    · exact ih _ h

theorem foldl_max_cases (l : List ℚ) (a : ℚ) : l.foldl max a = a ∨ l.foldl max a ∈ l := by
  induction l generalizing a with
  | nil => exact Or.inl rfl
  | cons b t ih =>
    rcases ih (max a b) with h | h
    · rcases max_choice a b with hm | hm
      · exact Or.inl (by rw [List.foldl_cons, h, hm])
      · exact Or.inr (by rw [List.foldl_cons, h, hm]; exact List.mem_cons_self b t)
    · exact Or.inr (List.mem_cons_of_mem b h)

theorem listMax_eq_of_max (l : List ℚ) (M : ℚ) (hne : l ≠ [])
    (hmem : ∀ x ∈ l, x ≤ M) (hM : M ∈ l) : listMax l = M := by
  cases l with
  | nil => exact absurd rfl hne
  | cons v r =>
    apply le_antisymm
    · show List.foldl max v r ≤ M
      rcases foldl_max_cases r v with h | h
      · rw [h]
        exact hmem v (List.mem_cons_self v r)
      · exact hmem _ (List.mem_cons_of_mem v h)
    · show M ≤ List.foldl max v r
      rcases List.mem_cons.mp hM with h | h
      · exact h ▸ foldl_max_init_le r M
      · exact foldl_max_mem_le r v M h

theorem chain_inc_le (x : List ℚ) (p : ℕ)
    (hinc : ∀ i < p, x.getD i 0 < x.getD (i + 1) 0) :
    ∀ i, i ≤ p → x.getD i 0 ≤ x.getD p 0 := by
  have key : ∀ d i, i + d = p → x.getD i 0 ≤ x.getD p 0 := by
    intro d
    induction d with
    | zero =>
      intro i h
      rw [show i = p by omega]
    | succ k ih =>
      intro i h
      calc x.getD i 0 ≤ x.getD (i + 1) 0 := le_of_lt (hinc i (by omega))
        _ ≤ x.getD p 0 := ih (i + 1) (by omega)
  exact fun i hi => key (p - i) i (by omega)

theorem chain_dec_le (x : List ℚ) (p : ℕ)
    (hdec : ∀ i, p ≤ i → i + 1 < x.length → x.getD (i + 1) 0 < x.getD i 0) :
    ∀ i, p ≤ i → i < x.length → x.getD i 0 ≤ x.getD p 0 := by
  have key : ∀ d i, p + d = i → i < x.length → x.getD i 0 ≤ x.getD p 0 := by
    intro d
    induction d with
    | zero =>
      intro i h _
      rw [show i = p by omega]
    | succ k ih =>
      intro i h hlen
      have h1 : x.getD i 0 < x.getD (i - 1) 0 := by
        have := hdec (i - 1) (by omega) (by omega)
        rwa [show i - 1 + 1 = i by omega] at this
      exact le_trans (le_of_lt h1) (ih (i - 1) (by omega) (by omega))
  exact fun i hi hlen => key (i - p) i (by omega) hlen

theorem listMax_single_peak (x : List ℚ) (p : ℕ) (hpn : p < x.length)
    (hinc : ∀ i < p, x.getD i 0 < x.getD (i + 1) 0)
    (hdec : ∀ i, p ≤ i → i + 1 < x.length → x.getD (i + 1) 0 < x.getD i 0) :
    listMax x = x.getD p 0 := by
  apply listMax_eq_of_max
  · intro h
    rw [h] at hpn
    simp at hpn
  · intro y hy
    obtain ⟨i, hi, rfl⟩ := List.mem_iff_getElem.mp hy
    rw [← List.getD_eq_getElem x 0 hi]
    rcases le_or_lt i p with h | h
    · exact chain_inc_le x p hinc i h
    · exact chain_dec_le x p hdec i (le_of_lt h) hi
  · rw [List.getD_eq_getElem x 0 hpn]
    exact List.getElem_mem hpn

theorem find_peaks_single (x : List ℚ) (hmin : ℚ) (p : ℕ)
    (h1 : localMaxima x = [p]) (h2 : hmin ≤ x.getD p 0) :
    find_peaks x hmin 5 = [p] := by
  unfold find_peaks
  rw [h1]
  have hd : decide (hmin ≤ x.getD p 0) = true := decide_eq_true h2
  simp only [List.filter_cons, List.filter_nil, hd, if_true]
  rfl

theorem find_peak_velocity_single (x : List ℚ) (p : ℕ)
    (hne : x ≠ []) (h1 : localMaxima x = [p])
    (hmax : listMax x = x.getD p 0) (hpos : 0 ≤ x.getD p 0) :
    _find_peak_velocity x = some p := by
  unfold _find_peak_velocity
  rw [if_neg hne]
  have hfp : find_peaks x (listMax x * (1/2)) 5 = [p] := by
    apply find_peaks_single x _ p h1
    rw [hmax]
    linarith
  rw [hfp]
  rfl

theorem calc_av_length (angles : List ℚ) (fps : ℚ) :
    (_calculate_angular_velocity angles fps).length =
      if angles.length < 2 then 1 else angles.length := by
  unfold _calculate_angular_velocity
  split
  · rfl
  · simp only [List.length_cons, velList_length]
    omega

theorem confidence_gt (pt vt av : ℚ) (prox : Option ProxInfo) (vc : Option ℚ)
    (hav : 75/2 < av) (hvt : 0 ≤ vt) :
    (3/10 : ℝ) < _calculate_confidence pt vt av prox vc := by
  have hav0 : (0 : ℚ) < av := by linarith
  have havR : (75/2 : ℝ) < (av : ℝ) := by
    have h2 : ((75/2 : ℚ) : ℝ) < (av : ℝ) := by exact_mod_cast hav
    push_cast at h2
    linarith
  have hbase : (3/10 : ℝ) < min 1 ((av : ℝ)/50) * (2/5) := by
    rcases le_or_lt 1 ((av : ℝ)/50) with h | h
    · rw [min_eq_left h]
      norm_num
    · rw [min_eq_right (le_of_lt h)]
      have hr : (av : ℝ)/50 * (2/5) = av * (1/125) := by ring
      rw [hr]
      linarith
  have hfin : ∀ c : ℝ, min 1 ((av : ℝ)/50) * (2/5) ≤ c → (3/10 : ℝ) < min 1 c := by
    intro c hc
    rw [lt_min_iff]
    exact ⟨by norm_num, lt_of_lt_of_le hbase hc⟩
  have hproxadd : ∀ q : ProxInfo, (0:ℝ) ≤ (1 - min 1 (Real.sqrt (q.dist2 : ℝ) / (pt : ℝ))) * (2/5) := by
    intro q
    have : min 1 (Real.sqrt (q.dist2 : ℝ) / (pt : ℝ)) ≤ 1 := min_le_left _ _
    have h1 : (0:ℝ) ≤ 1 - min 1 (Real.sqrt (q.dist2 : ℝ) / (pt : ℝ)) := by linarith
    positivity
  have hvcadd : ∀ w : ℚ, 0 < w → (0:ℝ) ≤ min 1 ((w : ℝ) / ((vt : ℝ) * 2)) * (1/5) := by
    intro w hw
    have h0 : (0:ℝ) ≤ (w : ℝ) / ((vt : ℝ) * 2) := by
      apply div_nonneg
      · exact_mod_cast le_of_lt hw
      · have : (0:ℝ) ≤ (vt : ℝ) := by exact_mod_cast hvt
        linarith
    have h1 : (0:ℝ) ≤ min 1 ((w : ℝ) / ((vt : ℝ) * 2)) := le_min (by norm_num) h0
    positivity
  rcases prox with _ | pr <;> rcases vc with _ | w <;>
    simp only [_calculate_confidence] <;> rw [if_pos hav0]
  · exact hfin _ (by linarith)
  · by_cases hw : 0 < w
    · rw [if_pos hw]
      exact hfin _ (by have := hvcadd w hw; linarith)
    · rw [if_neg hw]
      exact hfin _ (by linarith)
  · cases hpw : pr.within
    · simp only [hpw, Bool.false_eq_true, if_false]
      exact hfin _ (by linarith)
    · simp only [hpw, if_true]
      exact hfin _ (by have := hproxadd pr; linarith)
  · cases hpw : pr.within
    · simp only [hpw, Bool.false_eq_true, if_false]
      by_cases hw : 0 < w
      · rw [if_pos hw]
        exact hfin _ (by have := hvcadd w hw; linarith)
      · rw [if_neg hw]
        exact hfin _ (by linarith)
    · simp only [hpw, if_true]
      by_cases hw : 0 < w
      · rw [if_pos hw]
        exact hfin _ (by have h1 := hvcadd w hw; have h2 := hproxadd pr; linarith)
      · rw [if_neg hw]
        exact hfin _ (by have := hproxadd pr; linarith)

/-- C5 (amended): when the derived angular-velocity sequence strictly
increases up to a single interior maximum at index `p` and strictly
decreases afterwards, and additionally the peak angular velocity exceeds
37.5 deg/s (so that the velocity factor alone pushes the confidence over
0.3; `velocity_threshold ≥ 0` as in any sensible construction),
`detect_contact` returns a result whose frame is `p` with confidence
strictly above 0.3.  (As originally stated — without the peak-magnitude
condition — the claim is false, see the counterexample: a small peak
yields confidence ≤ 0.3 and `None`.) -/
theorem detect_contact_clear_peak (pt vt : ℚ) (batAngles : List ℚ)
    (bp : List (Option (ℚ × ℚ))) (ball : List (Option BallDet)) (fps : ℚ) (p : ℕ)
    (hvt : 0 ≤ vt) (hp0 : 0 < p)
    (hpn : p + 1 < (_calculate_angular_velocity batAngles fps).length)
    (hinc : ∀ i < p, (_calculate_angular_velocity batAngles fps).getD i 0 <
      (_calculate_angular_velocity batAngles fps).getD (i + 1) 0)
    (hdec : ∀ i, p ≤ i → i + 1 < (_calculate_angular_velocity batAngles fps).length →
      (_calculate_angular_velocity batAngles fps).getD (i + 1) 0 <
        (_calculate_angular_velocity batAngles fps).getD i 0)
    (hpeak : 75/2 < (_calculate_angular_velocity batAngles fps).getD p 0) :
    ∃ r : ContactResult,
      detect_contact pt vt batAngles bp ball fps = some r ∧
        r.frame = p ∧ (3/10 : ℝ) < r.confidence := by
  set v := _calculate_angular_velocity batAngles fps with hv
  have hlen3 : 3 ≤ v.length := by omega
  have hang : ¬ (batAngles.length < 3) := by
    intro hcon
    have hl := calc_av_length batAngles fps
    rw [← hv] at hl
    rcases lt_or_ge batAngles.length 2 with h2 | h2
    · rw [if_pos h2] at hl
      omega
    · rw [if_neg (not_lt.mpr h2)] at hl
      omega
  have hfind : _find_peak_velocity v = some p := by
    apply find_peak_velocity_single v p
    · intro hnil
      rw [hnil] at hlen3
      simp at hlen3
    · exact localMaxima_single_peak v p hp0 hpn hinc hdec
    · exact listMax_single_peak v p (by omega) hinc hdec
    · linarith [hpeak]
  have hconf : (3/10 : ℝ) < _calculate_confidence pt vt (v.getD p 0)
      (_check_proximity pt p bp ball) (_check_velocity_change vt p ball) :=
    confidence_gt pt vt (v.getD p 0) _ _ hpeak hvt
  simp only [detect_contact]
  rw [if_neg hang, ← hv, hfind]
  show ∃ r, (if (3/10 : ℝ) < _calculate_confidence pt vt (v.getD p 0)
      (_check_proximity pt p bp ball) (_check_velocity_change vt p ball) then
      some ⟨p, _calculate_confidence pt vt (v.getD p 0)
        (_check_proximity pt p bp ball) (_check_velocity_change vt p ball), v.getD p 0,
        (_check_proximity pt p bp ball).map (fun q => Real.sqrt (q.dist2 : ℝ)),
        _check_velocity_change vt p ball, if 0 < fps then p / fps else 0⟩
    else none) = some r ∧ r.frame = p ∧ (3/10 : ℝ) < r.confidence
  rw [if_pos hconf]
  exact ⟨_, rfl, rfl, hconf⟩

/-- Counterexample to C5 as stated: angles `[0, 1, 3, 4]` at `fps = 1`
yield the single-peak velocity sequence `[0, 1, 2, 1]` (strictly
increasing to a clear maximum at frame 2, then strictly decreasing), yet
`detect_contact` returns `None`: with no proximity or ball-velocity data
the confidence is `0.04·0.4 = 0.016 ≤ 0.3`. -/
theorem detect_contact_small_peak_counterexample :
    _calculate_angular_velocity [0, 1, 3, 4] 1 = [0, 1, 2, 1] ∧
      detect_contact 50 5 [0, 1, 3, 4] [] [] 1 = none := by
  have hv : _calculate_angular_velocity [0, 1, 3, 4] 1 = [0, 1, 2, 1] := by
    norm_num [_calculate_angular_velocity, velList, wrapDiff]
  refine ⟨hv, ?_⟩
  have hinc : ∀ i < 2, ([0, 1, 2, 1] : List ℚ).getD i 0 < ([0, 1, 2, 1] : List ℚ).getD (i + 1) 0 := by
    intro i hi
    interval_cases i <;> norm_num [List.getD]
  have hdec : ∀ i, 2 ≤ i → i + 1 < ([0, 1, 2, 1] : List ℚ).length →
      ([0, 1, 2, 1] : List ℚ).getD (i + 1) 0 < ([0, 1, 2, 1] : List ℚ).getD i 0 := by
    intro i h1 h2
    simp only [List.length_cons, List.length_nil] at h2
    have h2' : i < 3 := by omega
    interval_cases i
    norm_num [List.getD]
  have hfind : _find_peak_velocity [0, 1, 2, 1] = some 2 := by
    apply find_peak_velocity_single _ 2 (by simp)
    · exact localMaxima_single_peak _ 2 (by norm_num) (by norm_num) hinc hdec
    · exact listMax_single_peak _ 2 (by norm_num) hinc hdec
    · norm_num [List.getD]
  have hprox : _check_proximity 50 2 [] ([] : List (Option BallDet)) = none := rfl
  have hvc : _check_velocity_change 5 2 ([] : List (Option BallDet)) = none := rfl
  have hc : ¬ ((3/10 : ℝ) < _calculate_confidence 50 5 (([0, 1, 2, 1] : List ℚ).getD 2 0)
      (_check_proximity 50 2 [] []) (_check_velocity_change 5 2 [])) := by
    rw [hprox, hvc]
    simp only [_calculate_confidence]
    rw [if_pos (by norm_num [List.getD] : (0 : ℚ) < ([0, 1, 2, 1] : List ℚ).getD 2 0)]
    rw [not_lt]
    have hg : ((([0, 1, 2, 1] : List ℚ).getD 2 0 : ℚ) : ℝ) = 2 := by norm_num [List.getD]
    rw [hg]
    rw [min_eq_right (by norm_num : (2 : ℝ)/50 ≤ 1)]
    rw [min_eq_right (by norm_num)]
    norm_num
  simp only [detect_contact]
  rw [if_neg (by norm_num), hv, hfind]
  show (if (3/10 : ℝ) < _calculate_confidence 50 5 (([0, 1, 2, 1] : List ℚ).getD 2 0)
      (_check_proximity 50 2 [] []) (_check_velocity_change 5 2 []) then
      some (⟨2, _calculate_confidence 50 5 (([0, 1, 2, 1] : List ℚ).getD 2 0)
        (_check_proximity 50 2 [] []) (_check_velocity_change 5 2 []),
        ([0, 1, 2, 1] : List ℚ).getD 2 0,
        (_check_proximity 50 2 [] []).map (fun q => Real.sqrt (q.dist2 : ℝ)),
        _check_velocity_change 5 2 [], if (0 : ℚ) < 1 then 2 / 1 else 0⟩ : ContactResult)
    else none) = none
  rw [if_neg hc]

/-- Witness for the amended C5: angles `[0, 40, 120, 160]` at `fps = 1`
give velocities `[0, 40, 80, 40]`, a single clear peak of 80 deg/s at
frame 2. -/
theorem detect_contact_clear_peak_witness :
    ∃ r : ContactResult, detect_contact 50 5 [0, 40, 120, 160] [] [] 1 = some r ∧
      r.frame = 2 ∧ (3/10 : ℝ) < r.confidence :=
  detect_contact_clear_peak 50 5 [0, 40, 120, 160] [] [] 1 2
    (by norm_num)
    (by norm_num)
    (by norm_num [_calculate_angular_velocity, velList, wrapDiff])
    (by
      intro i hi
      interval_cases i <;> norm_num [_calculate_angular_velocity, velList, wrapDiff, List.getD])
    (by
      intro i h1 h2
      norm_num [_calculate_angular_velocity, velList, wrapDiff] at h2
      have h2' : i < 3 := by omega
      interval_cases i
      norm_num [_calculate_angular_velocity, velList, wrapDiff, List.getD])
    (by norm_num [_calculate_angular_velocity, velList, wrapDiff, List.getD])

end ContactDetector

/-! ## pose-detection-service/services/swing_phase_detector.py -/

namespace SwingPhaseDetector

inductive SwingPhase where
  | stance
  | load
  | stride
  | contact
  | followThrough
  | unknown
  deriving DecidableEq, Repr

/-- Input pose landmark: a dict with `x`, `y` and optional `z`,
`visibility` (the object-attribute branch of `_extract_landmarks` is the
same data in another container). -/
structure PoseLm where
  x : ℚ
  y : ℚ
  z : Option ℚ
  visibility : Option ℚ

/-- Extracted landmark scaled to pixel coordinates. -/
structure Point4 where
  x : ℚ
  y : ℚ
  z : ℚ
  visibility : ℚ

/-- The 13 named landmarks `_extract_landmarks` extracts (a field is
`none` when the MediaPipe index is out of range). -/
structure ExtractedLandmarks where
  nose : Option Point4
  leftShoulder : Option Point4
  rightShoulder : Option Point4
  leftElbow : Option Point4
  rightElbow : Option Point4
  leftWrist : Option Point4
  rightWrist : Option Point4
  leftHip : Option Point4
  rightHip : Option Point4
  leftKnee : Option Point4
  rightKnee : Option Point4
  leftAnkle : Option Point4
  rightAnkle : Option Point4

/-- One landmark at a MediaPipe index, scaled by the frame size. -/
def pickLm (landmarks : List PoseLm) (w h : ℚ) (idx : ℕ) : Option Point4 :=
  if idx < landmarks.length then
    let lm := landmarks.getD idx ⟨0, 0, none, none⟩
    some ⟨lm.x * w, lm.y * h, lm.z.getD 0, lm.visibility.getD 1⟩
  else none

/-- Number of landmarks present (`len(result)` of the built dict). -/
def countPresent (r : ExtractedLandmarks) : ℕ :=
  [r.nose.isSome, r.leftShoulder.isSome, r.rightShoulder.isSome, r.leftElbow.isSome,
    r.rightElbow.isSome, r.leftWrist.isSome, r.rightWrist.isSome, r.leftHip.isSome,
    r.rightHip.isSome, r.leftKnee.isSome, r.rightKnee.isSome, r.leftAnkle.isSome,
    r.rightAnkle.isSome].count true

/-- The method `_extract_landmarks` (nothing in the loop can raise, so
the except-branch is dead; at least 8 named landmarks are required). -/
def _extract_landmarks (landmarks : List PoseLm) (w h : ℚ) : Option ExtractedLandmarks :=
  let r : ExtractedLandmarks :=
    ⟨pickLm landmarks w h 0, pickLm landmarks w h 11, pickLm landmarks w h 12,
      pickLm landmarks w h 13, pickLm landmarks w h 14, pickLm landmarks w h 15,
      pickLm landmarks w h 16, pickLm landmarks w h 23, pickLm landmarks w h 24,
      pickLm landmarks w h 25, pickLm landmarks w h 26, pickLm landmarks w h 27,
      pickLm landmarks w h 28⟩
  if 8 ≤ countPresent r then some r else none

/-- Ball detection as consumed here (only the `center` key is read). -/
structure BallPos where
  center : Option (ℚ × ℚ)

/-- Per-frame metrics dict built by `_calculate_phase_metrics`; absent
keys are `none` (`ball_detected` is always written). -/
structure Metrics where
  avgWristY : Option ℚ
  wristSeparation : Option ℚ
  wristForward : Option ℚ
  avgElbowY : Option ℚ
  wristsAboveElbows : Option Bool
  hipSeparation : Option ℚ
  hipCenterX : Option ℚ
  kneeSeparation : Option ℚ
  ankleSeparation : Option ℚ
  strideLengthPixels : Option ℚ
  batAngle : Option ℚ
  batX : Option ℚ
  batY : Option ℚ
  ballX : Option ℚ
  ballY : Option ℚ
  ballDetected : Bool
  wristYVelocity : Option ℚ
  batXVelocity : Option ℚ
  frame : ℕ

def Metrics.empty : Metrics :=
  ⟨none, none, none, none, none, none, none, none, none, none, none, none, none,
    none, none, false, none, none, 0⟩

/-- The method `_calculate_phase_metrics`; `hist` is the detector's
`frame_metrics_history` before the current frame is appended. -/
def _calculate_phase_metrics (hist : List Metrics) (ld : ExtractedLandmarks)
    (batAngle : Option ℚ) (batPos : Option (ℚ × ℚ)) (ballPos : Option BallPos) : Metrics :=
  let m := Metrics.empty
  let m :=
    match ld.leftWrist, ld.rightWrist with
    | some lw, some rw =>
      {m with avgWristY := some ((lw.y + rw.y) / 2), wristSeparation := some |lw.x - rw.x|, wristForward := some rw.x}
    | _, _ => m
  let m :=
    match ld.leftElbow, ld.rightElbow with
    | some le, some re =>
      let m := {m with avgElbowY := some ((le.y + re.y) / 2)}
      match ld.leftWrist, ld.rightWrist with
      | some lw, some rw =>
        {m with wristsAboveElbows := some (decide ((lw.y + rw.y) / 2 < (le.y + re.y) / 2))}
      | _, _ => m
    | _, _ => m
  let m :=
    match ld.leftHip, ld.rightHip with
    | some lh, some rh => {m with hipSeparation := some |lh.x - rh.x|, hipCenterX := some ((lh.x + rh.x) / 2)}
    | _, _ => m
  let m :=
    match ld.leftKnee, ld.rightKnee with
    | some lk, some rk => {m with kneeSeparation := some |lk.x - rk.x|}
    | _, _ => m
  let m :=
    match ld.leftAnkle, ld.rightAnkle with
    | some la, some ra => {m with ankleSeparation := some |la.x - ra.x|, strideLengthPixels := some |la.x - ra.x|}
    | _, _ => m
  let m :=
    match batAngle with
    | some a => {m with batAngle := some a}
    | none => m
  let m :=
    match batPos with
    | some bp => {m with batX := some bp.1, batY := some bp.2}
    | none => m
  let m :=
    match ballPos with
    | some b =>
      match b.center with
      | some c => {m with ballX := some c.1, ballY := some c.2, ballDetected := true}
      | none => {m with ballDetected := false}
    | none => {m with ballDetected := false}
  let m :=
    match hist.getLast? with
    | some prev =>
      let m :=
        match m.avgWristY, prev.avgWristY with
        | some a, some b => {m with wristYVelocity := some (a - b)}
        | _, _ => m
      match m.batX, prev.batX with
      | some a, some b => {m with batXVelocity := some (a - b)}
      | _, _ => m
    | none => m
  m

/-- Python truthiness of an optional float (`None` and `0.0` are falsy). -/
def truthy (o : Option ℚ) : Bool :=
  match o with
  | some q => decide (q ≠ 0)
  | none => false

/-- The method `_classify_phase`: priority cascade
contact > follow-through > stride > load > stance-or-previous, over the
detector's `phase_history` (`hist`). -/
def _classify_phase (hist : List SwingPhase) (m : Metrics) : SwingPhase × ℚ :=
  if m.ballDetected = true ∧ truthy m.batX = true ∧ truthy m.ballX = true ∧
      |m.ballX.getD 0 - m.batX.getD 0| < 50 then
    (.contact, 9/10)
  else if 0 < m.wristForward.getD 0 ∧ m.batAngle.isSome = true ∧ hist ≠ [] ∧
      .contact ∈ (hist.drop (hist.length - 3)).filter (fun p => p ≠ .unknown) then
    (.followThrough, 8/10)
  else if 100 < m.ankleSeparation.getD 0 ∨ 80 < m.kneeSeparation.getD 0 then
    (.stride, 7/10)
  else if m.wristsAboveElbows.getD false = true ∧
      m.avgWristY.getD 0 < m.avgElbowY.getD 0 - 20 then
    (.load, 3/4)
  else if hist = [] ∨ hist.all (fun p => p = .stance) then
    (.stance, 3/5)
  else if hist ≠ [] then
    (hist.getLast?.getD .unknown, 1/2)
  else
    (.unknown, 0)

/-- Result dict of `detect_phase` (metrics present only on the full
path). -/
structure PhaseResult where
  phase : SwingPhase
  confidence : ℚ
  frame : ℕ
  metrics : Option Metrics

/-- The detector's mutable state: `phase_history` and
`frame_metrics_history`. -/
structure DetectorState where
  phaseHistory : List SwingPhase
  frameMetricsHistory : List Metrics

/-- A freshly constructed `SwingPhaseDetector`. -/
def initState : DetectorState := ⟨[], []⟩

/-- The method `detect_phase`: early unknown-returns leave the state
unchanged; on the full path the current metrics and phase are appended
and each history is popped at the front when it exceeds its cap
(30 frames of metrics, 10 phases). -/
def detect_phase (s : DetectorState) (poseLandmarks : Option (List PoseLm))
    (batAngle : Option ℚ) (batPosition : Option (ℚ × ℚ)) (ballPosition : Option BallPos)
    (frameShape : ℕ × ℕ) (frameIdx : ℕ) : DetectorState × PhaseResult :=
  match poseLandmarks with
  | none => (s, ⟨.unknown, 0, frameIdx, none⟩)
  | some lms =>
    if lms.length < 20 then (s, ⟨.unknown, 0, frameIdx, none⟩)
    else
      let h : ℚ := frameShape.1
      let w : ℚ := frameShape.2
      match _extract_landmarks lms w h with
      | none => (s, ⟨.unknown, 0, frameIdx, none⟩)
      | some ld =>
        let m0 := _calculate_phase_metrics s.frameMetricsHistory ld batAngle
          batPosition ballPosition
        let m := {m0 with frame := frameIdx}
        let fmh0 := s.frameMetricsHistory ++ [m]
        let fmh := if 30 < fmh0.length then fmh0.drop 1 else fmh0
        let pc := _classify_phase s.phaseHistory m
        let ph0 := s.phaseHistory ++ [pc.1]
        let ph := if 10 < ph0.length then ph0.drop 1 else ph0
        (⟨ph, fmh⟩, ⟨pc.1, pc.2, frameIdx, some m⟩)

/-- One frame's worth of `detect_phase` arguments. -/
structure FrameInput where
  poseLandmarks : Option (List PoseLm)
  batAngle : Option ℚ
  batPosition : Option (ℚ × ℚ)
  ballPosition : Option BallPos
  frameShape : ℕ × ℕ
  frameIdx : ℕ

/-- Folding any sequence of `detect_phase` calls over the state. -/
def runDetector (s : DetectorState) (inputs : List FrameInput) : DetectorState :=
  inputs.foldl
    (fun st inp =>
      (detect_phase st inp.poseLandmarks inp.batAngle inp.batPosition inp.ballPosition
        inp.frameShape inp.frameIdx).1)
    s

theorem detect_phase_bounds (s : DetectorState) (pl : Option (List PoseLm))
    (ba : Option ℚ) (bp : Option (ℚ × ℚ)) (ball : Option BallPos)
    (fs : ℕ × ℕ) (fi : ℕ)
    (h1 : s.phaseHistory.length ≤ 10) (h2 : s.frameMetricsHistory.length ≤ 30) :
    (detect_phase s pl ba bp ball fs fi).1.phaseHistory.length ≤ 10 ∧
      (detect_phase s pl ba bp ball fs fi).1.frameMetricsHistory.length ≤ 30 := by
  unfold detect_phase
  split
  · exact ⟨h1, h2⟩
  · split
    · exact ⟨h1, h2⟩
    · dsimp only
      split
      · exact ⟨h1, h2⟩
      · dsimp only
        constructor
        · split
          · simp only [List.length_drop, List.length_append, List.length_singleton]
            omega
          · next hc =>
            simp only [List.length_append, List.length_singleton] at hc ⊢
            omega
        · split
          · simp only [List.length_drop, List.length_append, List.length_singleton]
            omega
          · next hc =>
            simp only [List.length_append, List.length_singleton] at hc ⊢
            omega

/-- C9: after any sequence of `detect_phase` calls on a fresh detector
(whatever the per-frame inputs), `phase_history` holds at most 10
entries and `frame_metrics_history` at most 30. -/
theorem histories_bounded (inputs : List FrameInput) :
    (runDetector initState inputs).phaseHistory.length ≤ 10 ∧
      (runDetector initState inputs).frameMetricsHistory.length ≤ 30 := by
  have key : ∀ (l : List FrameInput) (s : DetectorState),
      s.phaseHistory.length ≤ 10 → s.frameMetricsHistory.length ≤ 30 →
      (runDetector s l).phaseHistory.length ≤ 10 ∧
        (runDetector s l).frameMetricsHistory.length ≤ 30 := by
    intro l
    induction l with
    | nil => exact fun s h1 h2 => ⟨h1, h2⟩
    | cons inp rest ih =>
      intro s h1 h2
      have hstep := detect_phase_bounds s inp.poseLandmarks inp.batAngle inp.batPosition
        inp.ballPosition inp.frameShape inp.frameIdx h1 h2
      have hrun : runDetector s (inp :: rest) =
          runDetector (detect_phase s inp.poseLandmarks inp.batAngle inp.batPosition
            inp.ballPosition inp.frameShape inp.frameIdx).1 rest := by
        simp [runDetector]
      rw [hrun]
      exact ih _ hstep.1 hstep.2
  exact key inputs initState (by simp [initState]) (by simp [initState])

end SwingPhaseDetector

/-! ## pose-detection-service/services/object_tracker.py

The cv2.KalmanFilter is an external OpenCV object; its three operations
used by the tracker (construction from a bbox, `predict`, `correct`) are
abstracted as a `KalmanOps` record over an arbitrary filter-state type
`κ`, so every theorem below holds for every Kalman implementation. -/

namespace ObjectTracker

structure Bbox where
  x1 : ℚ
  y1 : ℚ
  x2 : ℚ
  y2 : ℚ
  deriving DecidableEq, Repr

/-- A detection dict: `bbox` plus optional `confidence` and `class`
keys (read with `.get` defaults). -/
structure Det where
  bbox : Bbox
  confidence : Option ℚ
  className : Option String
  deriving DecidableEq, Repr

def defaultDet : Det := ⟨⟨0, 0, 0, 0⟩, none, none⟩

inductive TrackState where
  | tentative
  | confirmed
  | deleted
  deriving DecidableEq, Repr

/-- The `[x, y, aspect_ratio, height]` measurement vector. -/
structure XYAH where
  x : ℚ
  y : ℚ
  a : ℚ
  h : ℚ
  deriving DecidableEq, Repr

/-- Abstract interface of the external cv2.KalmanFilter as the tracker
uses it: `_create_kalman_filter`, `predict` (returning the first four
state components), and `correct` followed by reading `statePost[:4]`. -/
structure KalmanOps (κ : Type) where
  create : Bbox → κ
  predict : κ → κ × XYAH
  correct : κ → XYAH → κ × XYAH

/-- A `Track` object. -/
structure Track (κ : Type) where
  trackId : ℕ
  bbox : Bbox
  confidence : ℚ
  className : String
  state : TrackState
  age : ℕ
  timeSinceUpdate : ℕ
  hits : ℕ
  hitStreak : ℕ
  kalman : Option κ

/-- The method `Track.to_xyah`. -/
def to_xyah (b : Bbox) : XYAH :=
  let w := b.x2 - b.x1
  let h := b.y2 - b.y1
  let x := b.x1 + w / 2
  let y := b.y1 + h / 2
  let a := if 0 < h then w / h else 1
  ⟨x, y, a, h⟩

/-- The method `Track.from_xyah`. -/
def from_xyah (p : XYAH) : Bbox :=
  let w := p.a * p.h
  ⟨p.x - w / 2, p.y - p.h / 2, p.x + w / 2, p.y + p.h / 2⟩

/-- The `MultiObjectTracker` state. -/
structure TrackerState (κ : Type) where
  maxAge : ℕ
  minHits : ℕ
  iouThreshold : ℚ
  useKalman : Bool
  tracks : List (Track κ)
  frameCount : ℕ
  nextId : ℕ

/-- `MultiObjectTracker.__init__`. -/
def mkTracker (κ : Type) (maxAge minHits : ℕ) (iouThreshold : ℚ) (useKalman : Bool) :
    TrackerState κ :=
  ⟨maxAge, minHits, iouThreshold, useKalman, [], 0, 1⟩

/-- The method `_calculate_iou`. -/
def _calculate_iou (b1 b2 : Bbox) : ℚ :=
  let x1i := max b1.x1 b2.x1
  let y1i := max b1.y1 b2.y1
  let x2i := min b1.x2 b2.x2
  let y2i := min b1.y2 b2.y2
  if x2i ≤ x1i ∨ y2i ≤ y1i then 0
  else
    let inter := (x2i - x1i) * (y2i - y1i)
    let area1 := (b1.x2 - b1.x1) * (b1.y2 - b1.y1)
    let area2 := (b2.x2 - b2.x1) * (b2.y2 - b2.y1)
    let union := area1 + area2 - inter
    if 0 < union then inter / union else 0

/-- Stable descending insertion by the first component, modelling the
stable Python `matches.sort(reverse=True, key=lambda x: x[0])` (ties
keep their original order). -/
def insDesc (x : ℚ × ℕ × ℕ) : List (ℚ × ℕ × ℕ) → List (ℚ × ℕ × ℕ)
  | [] => [x]
  | y :: ys => if x.1 < y.1 then y :: insDesc x ys else x :: y :: ys

/-- Stable descending insertion sort by the first component. -/
def sortDesc : List (ℚ × ℕ × ℕ) → List (ℚ × ℕ × ℕ)
  | [] => []
  | x :: xs => insDesc x (sortDesc xs)

/-- Greedy acceptance loop over the sorted candidate pairs: accept a
pair when neither its detection index nor its track index is used yet
(`used_detections` / `used_tracks` sets are membership lists). -/
def greedyAccept (sorted : List (ℚ × ℕ × ℕ)) :
    List (ℕ × ℕ) × List ℕ × List ℕ :=
  sorted.foldl
    (fun acc m =>
      if m.2.1 ∉ acc.2.1 ∧ m.2.2 ∉ acc.2.2 then
        (acc.1 ++ [(m.2.1, m.2.2)], acc.2.1 ++ [m.2.1], acc.2.2 ++ [m.2.2])
      else acc)
    ([], [], [])

/-- The method `_associate_detections_to_trackers`: early returns for an
empty side, the IoU matrix, candidate pairs above the threshold in
(detection-major) loop order, the stable descending sort, the greedy
loop, and the leftover indices. -/
def _associate_detections_to_trackers (dets : List Det) (tracks : List (Track κ))
    (thr : ℚ) : List (ℕ × ℕ) × List ℕ × List ℕ :=
  if tracks.length = 0 then ([], List.range dets.length, [])
  else if dets.length = 0 then ([], [], List.range tracks.length)
  else
    let iouMatrix := dets.map (fun det => tracks.map (fun tr => _calculate_iou det.bbox tr.bbox))
    let cand := (List.range dets.length).flatMap (fun d =>
      (List.range tracks.length).filterMap (fun t =>
        let i := (iouMatrix.getD d []).getD t 0
        if thr < i then some (i, d, t) else none))
    let g := greedyAccept (sortDesc cand)
    (g.1, (List.range dets.length).filter (fun d => d ∉ g.2.1),
      (List.range tracks.length).filter (fun t => t ∉ g.2.2))

/-- The method `_create_track` (assigns `next_id`, then increments it). -/
def _create_track (ops : KalmanOps κ) (s : TrackerState κ) (det : Det) :
    Track κ × TrackerState κ :=
  let trackId := s.nextId
  let s' := {s with nextId := s.nextId + 1}
  let kf := if s'.useKalman then some (ops.create det.bbox) else none
  (⟨trackId, det.bbox, det.confidence.getD (1/2), det.className.getD "unknown",
    .tentative, 0, 0, 0, 0, kf⟩, s')

/-- The prediction loop body of `update`: Kalman-predict the bbox when a
filter is present and in use, then age the track. -/
def predictStep (ops : KalmanOps κ) (useKalman : Bool) (t : Track κ) : Track κ :=
  let t' :=
    match t.kalman, useKalman with
    | some kf, true =>
      let r := ops.predict kf
      {t with kalman := some r.1, bbox := from_xyah r.2}
    | _, _ => t
  {t' with age := t'.age + 1, timeSinceUpdate := t'.timeSinceUpdate + 1}

/-- The matched-track update body of `update`: Kalman-correct (or copy
the detection bbox), refresh confidence, reset `time_since_update`,
bump `hits`/`hit_streak`, and promote to confirmed on `hits ≥ min_hits`. -/
def updateMatched (ops : KalmanOps κ) (useKalman : Bool) (minHits : ℕ) (det : Det)
    (t : Track κ) : Track κ :=
  let t1 :=
    match t.kalman, useKalman with
    | some kf, true =>
      let r := ops.correct kf (to_xyah t.bbox)
      {t with kalman := some r.1, bbox := from_xyah r.2}
    | _, _ => {t with bbox := det.bbox}
  let t2 := {t1 with confidence := det.confidence.getD t1.confidence, timeSinceUpdate := 0, hits := t1.hits + 1, hitStreak := t1.hitStreak + 1}
  if t2.state = .tentative ∧ minHits ≤ t2.hits then {t2 with state := .confirmed} else t2

/-- The matched-tracks loop of `update` (in-place updates at the track
indices of the matched pairs). -/
def matchFold (ops : KalmanOps κ) (useKalman : Bool) (minHits : ℕ) (detections : List Det)
    (matched : List (ℕ × ℕ)) (ts : List (Track κ)) : List (Track κ) :=
  matched.foldl
    (fun ts m => listUpd (updateMatched ops useKalman minHits (detections.getD m.1 defaultDet)) m.2 ts)
    ts

/-- The new-track loop of `update`: append a fresh track per unmatched
detection index, threading `next_id` through the tracker state. -/
def createFold (ops : KalmanOps κ) (detections : List Det) (ids : List ℕ)
    (acc : List (Track κ) × TrackerState κ) : List (Track κ) × TrackerState κ :=
  ids.foldl
    (fun acc i =>
      let r := _create_track ops acc.2 (detections.getD i defaultDet)
      (acc.1 ++ [r.1], r.2))
    acc

/-- The method `MultiObjectTracker.update`, returning the new tracker
state and the confirmed tracks (the source returns them converted to
dicts by `_track_to_dict`). -/
def update (ops : KalmanOps κ) (s : TrackerState κ) (detections : List Det) :
    TrackerState κ × List (Track κ) :=
  let s1 := {s with frameCount := s.frameCount + 1}
  let tracks1 := s1.tracks.map (predictStep ops s1.useKalman)
  let assoc := _associate_detections_to_trackers detections tracks1 s1.iouThreshold
  let tracks2 := matchFold ops s1.useKalman s1.minHits detections assoc.1 tracks1
  let created := createFold ops detections assoc.2.1 (tracks2, s1)
  let tracks3 := created.1.filter (fun t => t.timeSinceUpdate < s1.maxAge)
  let s2 := {created.2 with tracks := tracks3}
  (s2, tracks3.filter (fun t => t.state = .confirmed))

/-- Folding `update` over a sequence of per-frame detection batches. -/
def updateSeq (ops : KalmanOps κ) (s : TrackerState κ) (batches : List (List Det)) :
    TrackerState κ :=
  batches.foldl (fun st b => (update ops st b).1) s

/-- Trivial Kalman operations over `Unit` (for concrete witnesses). -/
def unitOps : KalmanOps Unit :=
  ⟨fun _ => (), fun k => (k, ⟨0, 0, 0, 0⟩), fun k _ => (k, ⟨0, 0, 0, 0⟩)⟩

/-! ### C1/C2 invariants -/

theorem mem_listUpd {α : Type} {f : α → α} {i : ℕ} {l : List α} {x : α}
    (hx : x ∈ listUpd f i l) : x ∈ l ∨ ∃ y ∈ l, x = f y := by
  induction l generalizing i with
  | nil => simp at hx
  | cons a t ih =>
    cases i with
    | zero =>
      rcases List.mem_cons.mp hx with h | h
      · exact Or.inr ⟨a, by simp, h⟩
      · exact Or.inl (List.mem_cons_of_mem a h)
    | succ n =>
      rcases List.mem_cons.mp hx with h | h
      · exact Or.inl (by simp [h])
      · rcases ih h with h' | ⟨y, hy, hxy⟩
        · exact Or.inl (List.mem_cons_of_mem a h')
        · exact Or.inr ⟨y, List.mem_cons_of_mem a hy, hxy⟩

theorem matchFold_prop {P : Track κ → Prop} (ops : KalmanOps κ) (uk : Bool) (mh : ℕ)
    (dets : List Det)
    (hg : ∀ d y, P y → P (updateMatched ops uk mh d y)) :
    ∀ (ms : List (ℕ × ℕ)) (l : List (Track κ)), (∀ x ∈ l, P x) →
      ∀ x ∈ matchFold ops uk mh dets ms l, P x := by
  intro ms
  induction ms with
  | nil => exact fun l hl x hx => hl x hx
  | cons m rest ih =>
    intro l hl x hx
    have hx' : x ∈ matchFold ops uk mh dets rest
        (listUpd (updateMatched ops uk mh (dets.getD m.1 defaultDet)) m.2 l) := by
      simpa [matchFold] using hx
    refine ih _ ?_ x hx'
    intro y hy
    rcases mem_listUpd hy with h | ⟨z, hz, rfl⟩
    · exact hl y h
    · exact hg _ z (hl z hz)

theorem matchFold_map_trackId (ops : KalmanOps κ) (uk : Bool) (mh : ℕ) (dets : List Det) :
    ∀ (ms : List (ℕ × ℕ)) (l : List (Track κ)),
      (matchFold ops uk mh dets ms l).map Track.trackId = l.map Track.trackId := by
  intro ms
  induction ms with
  | nil => exact fun l => rfl
  | cons m rest ih =>
    intro l
    have hid : ∀ y : Track κ,
        (updateMatched ops uk mh (dets.getD m.1 defaultDet) y).trackId = y.trackId := by
      intro y
      unfold updateMatched
      dsimp only
      split <;> split <;> rfl
    calc (matchFold ops uk mh dets (m :: rest) l).map Track.trackId
        = (matchFold ops uk mh dets rest
            (listUpd (updateMatched ops uk mh (dets.getD m.1 defaultDet)) m.2 l)).map Track.trackId := by
          simp [matchFold]
      _ = (listUpd (updateMatched ops uk mh (dets.getD m.1 defaultDet)) m.2 l).map Track.trackId := ih _
      _ = l.map Track.trackId := map_listUpd _ _ _ _ hid

theorem createFold_invariant (ops : KalmanOps κ) (dets : List Det) :
    ∀ (ids : List ℕ) (ts : List (Track κ)) (s : TrackerState κ),
      (createFold ops dets ids (ts, s)).2.maxAge = s.maxAge ∧
      (createFold ops dets ids (ts, s)).2.minHits = s.minHits ∧
      (createFold ops dets ids (ts, s)).2.iouThreshold = s.iouThreshold ∧
      (createFold ops dets ids (ts, s)).2.useKalman = s.useKalman ∧
      s.nextId ≤ (createFold ops dets ids (ts, s)).2.nextId ∧
      (∀ x ∈ (createFold ops dets ids (ts, s)).1,
        x ∈ ts ∨ (x.state = .tentative ∧ x.hits = 0 ∧ x.timeSinceUpdate = 0 ∧
          s.nextId ≤ x.trackId)) ∧
      ((∀ x ∈ ts, x.trackId < s.nextId) →
        (∀ x ∈ (createFold ops dets ids (ts, s)).1,
          x.trackId < (createFold ops dets ids (ts, s)).2.nextId)) ∧
      ((∀ x ∈ ts, x.trackId < s.nextId) →
        ts.Pairwise (fun a b => a.trackId ≠ b.trackId) →
        (createFold ops dets ids (ts, s)).1.Pairwise (fun a b => a.trackId ≠ b.trackId)) := by
  intro ids
  induction ids with
  | nil =>
    intro ts s
    refine ⟨rfl, rfl, rfl, rfl, le_refl _, fun x hx => Or.inl hx, fun hb x hx => ?_, fun _ hp => hp⟩
    exact lt_of_lt_of_le (hb x hx) (le_refl _)
  | cons i rest ih =>
    intro ts s
    have hstep : createFold ops dets (i :: rest) (ts, s) =
        createFold ops dets rest
          (ts ++ [(_create_track ops s (dets.getD i defaultDet)).1],
            (_create_track ops s (dets.getD i defaultDet)).2) := by
      simp [createFold]
    rw [hstep]
    obtain ⟨c1, c2, c3, c4, c5, c6, c7, c8⟩ :=
      ih (ts ++ [(_create_track ops s (dets.getD i defaultDet)).1])
        (_create_track ops s (dets.getD i defaultDet)).2
    have hsnew : (_create_track ops s (dets.getD i defaultDet)).2.nextId = s.nextId + 1 := rfl
    have htnew : (_create_track ops s (dets.getD i defaultDet)).1.trackId = s.nextId := rfl
    have hstate : (_create_track ops s (dets.getD i defaultDet)).1.state = .tentative := rfl
    have hhits : (_create_track ops s (dets.getD i defaultDet)).1.hits = 0 := rfl
    have htsu : (_create_track ops s (dets.getD i defaultDet)).1.timeSinceUpdate = 0 := rfl
    refine ⟨c1, c2, c3, c4, le_trans (by omega) c5, ?_, ?_, ?_⟩
    · intro x hx
      rcases c6 x hx with h | ⟨h1, h2, h3, h4⟩
      · rcases List.mem_append.mp h with h' | h'
        · exact Or.inl h'
        · have : x = (_create_track ops s (dets.getD i defaultDet)).1 := by simpa using h'
          subst this
          exact Or.inr ⟨hstate, hhits, htsu, le_of_eq htnew.symm⟩
      · exact Or.inr ⟨h1, h2, h3, by omega⟩
    · intro hb
      apply c7
      intro x hx
      rcases List.mem_append.mp hx with h' | h'
      · have := hb x h'
        omega
      · have : x = (_create_track ops s (dets.getD i defaultDet)).1 := by simpa using h'
        subst this
        omega
    · intro hb hp
      apply c8
      · intro x hx
        rcases List.mem_append.mp hx with h' | h'
        · have := hb x h'
          omega
        · have : x = (_create_track ops s (dets.getD i defaultDet)).1 := by simpa using h'
          subst this
          omega
      · rw [List.pairwise_append]
        refine ⟨hp, by simp, ?_⟩
        intro a ha b hb'
        have : b = (_create_track ops s (dets.getD i defaultDet)).1 := by simpa using hb'
        subst this
        have := hb a ha
        omega

theorem predictStep_state (ops : KalmanOps κ) (uk : Bool) (t : Track κ) :
    (predictStep ops uk t).state = t.state ∧ (predictStep ops uk t).hits = t.hits ∧
      (predictStep ops uk t).trackId = t.trackId := by
  unfold predictStep
  dsimp only
  refine ⟨?_, ?_, ?_⟩ <;> (split <;> rfl)

theorem updateMatched_spec (ops : KalmanOps κ) (uk : Bool) (mh : ℕ) (d : Det) (y : Track κ) :
    (updateMatched ops uk mh d y).hits = y.hits + 1 ∧
      (updateMatched ops uk mh d y).state =
        (if y.state = .tentative ∧ mh ≤ y.hits + 1 then .confirmed else y.state) := by
  unfold updateMatched
  rcases hk : y.kalman with _ | kf <;> cases uk <;> simp only [hk]
  all_goals
    constructor
    · split <;> rfl
    · split <;> rfl

/-- Per-track C1 invariant: confirmed exactly when `hits ≥ min_hits`,
and the never-assigned `deleted` state does not occur. -/
def TrackOk (mh : ℕ) (t : Track κ) : Prop :=
  (t.state = .confirmed ↔ mh ≤ t.hits) ∧ t.state ≠ .deleted

theorem updateMatched_ok (ops : KalmanOps κ) (uk : Bool) (mh : ℕ) (d : Det) (y : Track κ)
    (hy : TrackOk mh y) : TrackOk mh (updateMatched ops uk mh d y) := by
  obtain ⟨hs, hh⟩ := updateMatched_spec ops uk mh d y
  obtain ⟨hiff, hnd⟩ := hy
  constructor
  · rw [hs, hh]
    split
    · next hcond => exact ⟨fun _ => hcond.2, fun _ => rfl⟩
    · next hcond =>
      constructor
      · intro hc
        have := hiff.mp hc
        omega
      · intro hle
        rcases hstate : y.state with _ | _ | _
        · exact absurd ⟨rfl, hle⟩ (hstate ▸ hcond)
        · rfl
        · exact absurd hstate hnd
  · rw [hh]
    split
    · intro hcon
      cases hcon
    · exact hnd

theorem predictStep_ok (ops : KalmanOps κ) (uk : Bool) (mh : ℕ) (t : Track κ)
    (ht : TrackOk mh t) : TrackOk mh (predictStep ops uk t) := by
  obtain ⟨h1, h2, _⟩ := predictStep_state ops uk t
  exact ⟨by rw [h1, h2]; exact ht.1, by rw [h1]; exact ht.2⟩

/-- Intermediate pieces of one `update` call, definitionally equal to
the corresponding let-bindings of `update`. -/
def updAssoc (ops : KalmanOps κ) (s : TrackerState κ) (dets : List Det) :
    List (ℕ × ℕ) × List ℕ × List ℕ :=
  _associate_detections_to_trackers dets
    (s.tracks.map (predictStep ops s.useKalman)) s.iouThreshold

def updTracks2 (ops : KalmanOps κ) (s : TrackerState κ) (dets : List Det) : List (Track κ) :=
  matchFold ops s.useKalman s.minHits dets (updAssoc ops s dets).1
    (s.tracks.map (predictStep ops s.useKalman))

def updCreated (ops : KalmanOps κ) (s : TrackerState κ) (dets : List Det) :
    List (Track κ) × TrackerState κ :=
  createFold ops dets (updAssoc ops s dets).2.1
    (updTracks2 ops s dets, {s with frameCount := s.frameCount + 1})

theorem update_fst (ops : KalmanOps κ) (s : TrackerState κ) (dets : List Det) :
    (update ops s dets).1 =
      {(updCreated ops s dets).2 with
        tracks := (updCreated ops s dets).1.filter (fun t => t.timeSinceUpdate < s.maxAge)} :=
  rfl

theorem update_inv1 (ops : KalmanOps κ) (s : TrackerState κ) (dets : List Det)
    (hmin : 1 ≤ s.minHits) (h : ∀ t ∈ s.tracks, TrackOk s.minHits t) :
    (∀ t ∈ (update ops s dets).1.tracks,
      TrackOk s.minHits t ∧ t.timeSinceUpdate < s.maxAge) ∧
      (update ops s dets).1.maxAge = s.maxAge ∧
      (update ops s dets).1.minHits = s.minHits ∧
      (update ops s dets).1.iouThreshold = s.iouThreshold ∧
      (update ops s dets).1.useKalman = s.useKalman := by
  obtain ⟨c1, c2, c3, c4, c5, c6, c7, c8⟩ :=
    createFold_invariant ops dets (updAssoc ops s dets).2.1 (updTracks2 ops s dets)
      {s with frameCount := s.frameCount + 1}
  have hT2 : ∀ x ∈ updTracks2 ops s dets, TrackOk s.minHits x := by
    apply matchFold_prop ops s.useKalman s.minHits dets
      (fun d y hy => updateMatched_ok ops s.useKalman s.minHits d y hy)
    intro x hx
    obtain ⟨y, hy, rfl⟩ := List.mem_map.mp hx
    exact predictStep_ok ops s.useKalman s.minHits y (h y hy)
  rw [update_fst]
  refine ⟨?_, c1, c2, c3, c4⟩
  intro t ht
  obtain ⟨hmem, hcond⟩ := List.mem_filter.mp ht
  refine ⟨?_, by simpa using hcond⟩
  rcases c6 t hmem with hold | ⟨hst, hh, _, _⟩
  · exact hT2 t hold
  · constructor
    · constructor
      · intro hc
        rw [hst] at hc
        cases hc
      · intro hle
        rw [hh] at hle
        omega
    · rw [hst]
      intro hd
      cases hd

/-- C1: over every run of `MultiObjectTracker.update` (any detection
batches, any Kalman implementation, `min_hits ≥ 1`), every track held by
the tracker is confirmed exactly when it has accumulated
`hits ≥ min_hits` (so the tentative → confirmed promotion happens at
exactly that point), and every track with
`time_since_update ≥ max_age` has been removed from the track list. -/
theorem track_confirmation_and_removal (κ : Type) (ops : KalmanOps κ)
    (maxAge minHits : ℕ) (thr : ℚ) (uk : Bool) (batches : List (List Det))
    (hmin : 1 ≤ minHits) :
    ∀ t ∈ (updateSeq ops (mkTracker κ maxAge minHits thr uk) batches).tracks,
      (t.state = .confirmed ↔ minHits ≤ t.hits) ∧ t.timeSinceUpdate < maxAge := by
  have key : ∀ (bs : List (List Det)) (s : TrackerState κ),
      s.minHits = minHits → s.maxAge = maxAge →
      (∀ t ∈ s.tracks, TrackOk minHits t ∧ t.timeSinceUpdate < maxAge) →
      (updateSeq ops s bs).minHits = minHits ∧ (updateSeq ops s bs).maxAge = maxAge ∧
        ∀ t ∈ (updateSeq ops s bs).tracks, TrackOk minHits t ∧ t.timeSinceUpdate < maxAge := by
    intro bs
    induction bs with
    | nil => exact fun s h1 h2 h3 => ⟨h1, h2, h3⟩
    | cons b rest ih =>
      intro s h1 h2 h3
      obtain ⟨ha, hb, hc, _, _⟩ := update_inv1 ops s b (by omega)
        (fun t ht => h1 ▸ (h3 t ht).1)
      have hseq : updateSeq ops s (b :: rest) = updateSeq ops (update ops s b).1 rest := by
        simp [updateSeq]
      rw [hseq]
      apply ih
      · rw [hc, h1]
      · rw [hb, h2]
      · intro t ht
        obtain ⟨hok, htsu⟩ := ha t ht
        exact ⟨h1 ▸ hok, h2 ▸ htsu⟩
  obtain ⟨_, _, hfin⟩ := key batches (mkTracker κ maxAge minHits thr uk) rfl rfl
    (by simp [mkTracker])
  exact fun t ht => ⟨(hfin t ht).1.1, (hfin t ht).2⟩

/-- Witness for C1 on a concrete one-batch run with the default
configuration. -/
theorem track_confirmation_and_removal_witness :
    ((updateSeq unitOps (mkTracker Unit 30 3 (3/10) false)
        [[⟨⟨0, 0, 10, 10⟩, none, none⟩]]).tracks).Forall
      (fun t => (t.state = .confirmed ↔ 3 ≤ t.hits) ∧ t.timeSinceUpdate < 30) := by
  rw [List.forall_iff_forall_mem]
  exact track_confirmation_and_removal Unit unitOps 30 3 (3/10) false
    [[⟨⟨0, 0, 10, 10⟩, none, none⟩]] (by norm_num)

theorem update_ids (ops : KalmanOps κ) (s : TrackerState κ) (dets : List Det)
    (hb : ∀ t ∈ s.tracks, t.trackId < s.nextId)
    (hp : s.tracks.Pairwise (fun a b => a.trackId ≠ b.trackId)) :
    (∀ t ∈ (update ops s dets).1.tracks, t.trackId < (update ops s dets).1.nextId) ∧
      (update ops s dets).1.tracks.Pairwise (fun a b => a.trackId ≠ b.trackId) ∧
      s.nextId ≤ (update ops s dets).1.nextId ∧
      (∀ t' ∈ (update ops s dets).1.tracks,
        (∃ t0 ∈ s.tracks, t'.trackId = t0.trackId) ∨ s.nextId ≤ t'.trackId) := by
  have hmap1 : (s.tracks.map (predictStep ops s.useKalman)).map Track.trackId =
      s.tracks.map Track.trackId := by
    rw [List.map_map]
    apply List.map_congr_left
    intro x _
    exact (predictStep_state ops s.useKalman x).2.2
  have hmap2 : (updTracks2 ops s dets).map Track.trackId = s.tracks.map Track.trackId := by
    unfold updTracks2
    rw [matchFold_map_trackId]
    exact hmap1
  have hb2 : ∀ x ∈ updTracks2 ops s dets, x.trackId < s.nextId := by
    intro x hx
    have hm : x.trackId ∈ (updTracks2 ops s dets).map Track.trackId :=
      List.mem_map_of_mem Track.trackId hx
    rw [hmap2] at hm
    obtain ⟨y, hy, hxy⟩ := List.mem_map.mp hm
    rw [← hxy]
    exact hb y hy
  have hp2 : (updTracks2 ops s dets).Pairwise (fun a b => a.trackId ≠ b.trackId) := by
    rw [← List.pairwise_map (f := Track.trackId) (R := fun a b => a ≠ b), hmap2,
      List.pairwise_map]
    exact hp
  obtain ⟨c1, c2, c3, c4, c5, c6, c7, c8⟩ :=
    createFold_invariant ops dets (updAssoc ops s dets).2.1 (updTracks2 ops s dets)
      {s with frameCount := s.frameCount + 1}
  rw [update_fst]
  refine ⟨?_, ?_, c5, ?_⟩
  · intro t ht
    exact c7 hb2 t (List.mem_filter.mp ht).1
  · exact (c8 hb2 hp2).sublist (List.filter_sublist _)
  · intro t' ht'
    rcases c6 t' (List.mem_filter.mp ht').1 with hold | ⟨_, _, _, hge⟩
    · left
      have hm : t'.trackId ∈ (updTracks2 ops s dets).map Track.trackId :=
        List.mem_map_of_mem Track.trackId hold
      rw [hmap2] at hm
      obtain ⟨y, hy, hxy⟩ := List.mem_map.mp hm
      exact ⟨y, hy, hxy.symm⟩
    · exact Or.inr hge

/-- C2: in every state reachable by a fresh `MultiObjectTracker` (any
detection batches, any Kalman implementation), the tracks carry pairwise
distinct `track_id` values and every id lies below the state's
`next_id`; at the next `update` every genuinely new track (one whose id
matches no existing track) receives an id at least `next_id`, hence
strictly greater than every track id assigned before it (every id ever
assigned was below the then-current, non-decreasing `next_id`). -/
theorem track_ids_unique_monotone (κ : Type) (ops : KalmanOps κ)
    (maxAge minHits : ℕ) (thr : ℚ) (uk : Bool) (batches : List (List Det))
    (ds : List Det) :
    (updateSeq ops (mkTracker κ maxAge minHits thr uk) batches).tracks.Pairwise
        (fun a b => a.trackId ≠ b.trackId) ∧
      (∀ t ∈ (updateSeq ops (mkTracker κ maxAge minHits thr uk) batches).tracks,
        t.trackId < (updateSeq ops (mkTracker κ maxAge minHits thr uk) batches).nextId) ∧
      ∀ t' ∈ (update ops (updateSeq ops (mkTracker κ maxAge minHits thr uk) batches) ds).1.tracks,
        (∀ t ∈ (updateSeq ops (mkTracker κ maxAge minHits thr uk) batches).tracks,
            t'.trackId ≠ t.trackId) →
        (updateSeq ops (mkTracker κ maxAge minHits thr uk) batches).nextId ≤ t'.trackId ∧
        ∀ t ∈ (updateSeq ops (mkTracker κ maxAge minHits thr uk) batches).tracks,
          t.trackId < t'.trackId := by
  have key : ∀ (bs : List (List Det)) (s : TrackerState κ),
      (∀ t ∈ s.tracks, t.trackId < s.nextId) →
      s.tracks.Pairwise (fun a b => a.trackId ≠ b.trackId) →
      (∀ t ∈ (updateSeq ops s bs).tracks, t.trackId < (updateSeq ops s bs).nextId) ∧
        (updateSeq ops s bs).tracks.Pairwise (fun a b => a.trackId ≠ b.trackId) := by
    intro bs
    induction bs with
    | nil => exact fun s h1 h2 => ⟨h1, h2⟩
    | cons b rest ih =>
      intro s h1 h2
      obtain ⟨d1, d2, _, _⟩ := update_ids ops s b h1 h2
      have hseq : updateSeq ops s (b :: rest) = updateSeq ops (update ops s b).1 rest := by
        simp [updateSeq]
      rw [hseq]
      exact ih _ d1 d2
  obtain ⟨hbound, hpair⟩ := key batches (mkTracker κ maxAge minHits thr uk)
    (by simp [mkTracker]) (by simp [mkTracker])
  refine ⟨hpair, hbound, ?_⟩
  intro t' ht' hfresh
  obtain ⟨_, _, _, hsplit⟩ :=
    update_ids ops (updateSeq ops (mkTracker κ maxAge minHits thr uk) batches) ds hbound hpair
  rcases hsplit t' ht' with ⟨t0, ht0, heq⟩ | hge
  · exact absurd heq (hfresh t0 ht0)
  · exact ⟨hge, fun t ht => lt_of_lt_of_le (hbound t ht) hge⟩

/-! ### C3: the association step equals the reference greedy algorithm -/

/-- The reference association algorithm as the spec words it: the full
IoU matrix, one flat collection of all (detection, track) pairs whose
IoU is strictly above the threshold, stable descending sort, greedy
acceptance of pairs whose detection and track are both still unmatched,
and the remaining indices unmatched — with no special cases. -/
def refAssociate (dets : List Det) (tracks : List (Track κ)) (thr : ℚ) :
    List (ℕ × ℕ) × List ℕ × List ℕ :=
  let iouMatrix := dets.map (fun det => tracks.map (fun tr => _calculate_iou det.bbox tr.bbox))
  let pairs := ((List.range dets.length) ×ˢ (List.range tracks.length)).filterMap
    (fun p =>
      let i := (iouMatrix.getD p.1 []).getD p.2 0
      if thr < i then some (i, p.1, p.2) else none)
  let g := greedyAccept (sortDesc pairs)
  (g.1, (List.range dets.length).filter (fun d => d ∉ g.2.1),
    (List.range tracks.length).filter (fun t => t ∉ g.2.2))

theorem flatMap_filterMap_eq_product {α β γ : Type} (l1 : List α) (l2 : List β)
    (g : α → β → Option γ) :
    l1.flatMap (fun a => l2.filterMap (g a)) =
      (l1 ×ˢ l2).filterMap (fun p => g p.1 p.2) := by
  induction l1 with
  | nil => rfl
  | cons a l ih =>
    simp only [List.flatMap_cons, List.product_cons, List.filterMap_append, ih,
      List.filterMap_map]
    rfl

/-- C3: `_associate_detections_to_trackers` coincides with the
reference greedy-IoU association for every list of detections, every
list of tracks and every threshold. -/
theorem associate_eq_ref (κ : Type) (dets : List Det) (tracks : List (Track κ)) (thr : ℚ) :
    _associate_detections_to_trackers dets tracks thr = refAssociate dets tracks thr := by
  unfold _associate_detections_to_trackers refAssociate
  by_cases htr : tracks.length = 0
  · rw [if_pos htr]
    have htracks : tracks = [] := List.length_eq_zero.mp htr
    subst htracks
    simp only [List.length_nil, List.range_zero, List.product_nil, List.filterMap_nil]
    have hg : greedyAccept (sortDesc []) = ([], [], []) := rfl
    rw [hg]
    simp [List.filter_eq_self]
  · rw [if_neg htr]
    by_cases hdt : dets.length = 0
    · rw [if_pos hdt]
      have hdets : dets = [] := List.length_eq_zero.mp hdt
      subst hdets
      simp only [List.length_nil, List.range_zero, List.nil_product, List.filterMap_nil,
        List.map_nil]
      have hg : greedyAccept (sortDesc []) = ([], [], []) := rfl
      rw [hg]
      simp [List.filter_eq_self]
    · rw [if_neg hdt]
      dsimp only
      rw [flatMap_filterMap_eq_product]

end ObjectTracker

/-! ## pose-detection-service/services/biomechanics_analyzer.py

Only `_calculate_rotation_angles` is embedded (the function C8 is
about).  `np.arctan2`/`np.degrees` are modelled over the reals; the
hash-seeded `random.uniform` fallback values (reached only when
landmarks are missing) enter as the explicit parameters `hipRand` and
`shoulderRand`, which stand for `uniform(40, 55)` and `uniform(3, 10)`
respectively — the claim's hypotheses make those branches dead, and the
determinism conjunct quantifies over them. -/

namespace BiomechanicsAnalyzer

structure Point where
  x : ℝ
  y : ℝ

/-- The five landmark dict entries `_calculate_rotation_angles` reads. -/
structure Landmarks where
  leftHip : Option Point
  rightHip : Option Point
  leftShoulder : Option Point
  rightShoulder : Option Point
  nose : Option Point

/-- The `bat_angle_stats` dict (`mean` / `range` keys read with
defaults). -/
structure BatAngleStats where
  mean : Option ℝ
  range : Option ℝ

/-- Two-argument arctangent with `math.atan2` conventions (first
argument `y`, second `x`; zero at the origin). -/
noncomputable def atan2 (y x : ℝ) : ℝ :=
  if 0 < x then Real.arctan (y / x)
  else if x < 0 then
    (if 0 ≤ y then Real.arctan (y / x) + Real.pi else Real.arctan (y / x) - Real.pi)
  else (if 0 < y then Real.pi / 2 else if y < 0 then -(Real.pi / 2) else 0)

/-- Radians to degrees (`np.degrees`). -/
noncomputable def degrees (r : ℝ) : ℝ := r * (180 / Real.pi)

/-- Output dict of `_calculate_rotation_angles` (`hip_rotation`,
`shoulder_rotation` and hence `torso_rotation` are always present,
`spine_angle` only when a nose and hips or a shoulder exist). -/
structure Rotations where
  hip_rotation : ℝ
  shoulder_rotation : ℝ
  torso_rotation : ℝ
  spine_angle : Option ℝ

/-- The method `_calculate_rotation_angles`.  The Python truthiness of
`bat_angle or 40.0` (a 0.0 bat angle falls back to 40.0) and of the
landmark dicts is modelled explicitly. -/
noncomputable def _calculate_rotation_angles (hipRand shoulderRand : ℝ) (lm : Landmarks)
    (batAngle : Option ℝ) (stats : Option BatAngleStats) : Rotations :=
  let hip : ℝ :=
    match lm.leftHip, lm.rightHip with
    | some lh, some rh => degrees (atan2 (rh.y - lh.y) (rh.x - lh.x))
    | _, _ =>
      match stats with
      | some st =>
        let dflt :=
          match batAngle with
          | some ba => if ba ≠ 0 then ba else 40
          | none => 40
        let batMean := st.mean.getD dflt
        let batRange := st.range.getD 0
        max 35 (min 65 (batMean + (7 + batRange / 10)))
      | none =>
        match batAngle with
        | some ba => ba + 7
        | none =>
          match lm.leftShoulder, lm.rightShoulder with
          | some ls, some rs => degrees (atan2 (rs.y - ls.y) (rs.x - ls.x))
          | _, _ => hipRand
  let shoulder : ℝ :=
    match lm.leftShoulder, lm.rightShoulder with
    | some ls, some rs => degrees (atan2 (rs.y - ls.y) (rs.x - ls.x))
    | _, _ =>
      match stats with
      | some st =>
        let dflt :=
          match batAngle with
          | some ba => if ba ≠ 0 then ba else 40
          | none => 40
        let batMean := st.mean.getD dflt
        let batRange := st.range.getD 0
        max 30 (min 55 (batMean - (3 + batRange / 15)))
      | none =>
        match batAngle with
        | some ba => ba - 3
        | none =>
          if hip ≠ 47 then hip * (85 / 100)
          else max 30 (min 50 (hip - shoulderRand))
  let torso := |shoulder - hip|
  let spine : Option ℝ :=
    match lm.nose, lm.leftHip, lm.rightHip with
    | some ns, some lh, some rh =>
      let midHipY := (lh.y + rh.y) / 2
      let midHipX := (lh.x + rh.x) / 2
      some (90 - |degrees (atan2 (midHipX - ns.x) (midHipY - ns.y))|)
    | _, _, _ =>
      match lm.nose, lm.leftShoulder.orElse (fun _ => lm.rightShoulder) with
      | some ns, some sh => some (90 - |degrees (atan2 (sh.x - ns.x) (sh.y - ns.y))|)
      | _, _ => none
  ⟨hip, shoulder, torso, spine⟩

/-- C8: when both hips and both shoulders are present,
`_calculate_rotation_angles` returns exactly
`degrees(atan2(dy, dx))` of the hip vector and of the shoulder vector,
and the result does not depend on the hash-seeded random fallback values
(two calls with the same landmarks agree). -/
theorem rotation_angles_complete (h1 s1 h2 s2 : ℝ) (lm : Landmarks) (ba : Option ℝ)
    (st : Option BatAngleStats) (lh rh ls rs : Point)
    (hlh : lm.leftHip = some lh) (hrh : lm.rightHip = some rh)
    (hls : lm.leftShoulder = some ls) (hrs : lm.rightShoulder = some rs) :
    (_calculate_rotation_angles h1 s1 lm ba st).hip_rotation =
        degrees (atan2 (rh.y - lh.y) (rh.x - lh.x)) ∧
      (_calculate_rotation_angles h1 s1 lm ba st).shoulder_rotation =
        degrees (atan2 (rs.y - ls.y) (rs.x - ls.x)) ∧
      _calculate_rotation_angles h1 s1 lm ba st = _calculate_rotation_angles h2 s2 lm ba st := by
  unfold _calculate_rotation_angles
  refine ⟨?_, ?_, ?_⟩ <;> simp only [hlh, hrh, hls, hrs]

/-- Witness for C8 at concrete landmark coordinates and two distinct
pairs of fallback values. -/
theorem rotation_angles_complete_witness :
    (_calculate_rotation_angles 1 2
        ⟨some ⟨0, 0⟩, some ⟨2, 1⟩, some ⟨0, 1⟩, some ⟨3, 2⟩, none⟩ none none).hip_rotation =
        degrees (atan2 ((Point.mk 2 1).y - (Point.mk 0 0).y) ((Point.mk 2 1).x - (Point.mk 0 0).x)) ∧
      (_calculate_rotation_angles 1 2
        ⟨some ⟨0, 0⟩, some ⟨2, 1⟩, some ⟨0, 1⟩, some ⟨3, 2⟩, none⟩ none none).shoulder_rotation =
        degrees (atan2 ((Point.mk 3 2).y - (Point.mk 0 1).y) ((Point.mk 3 2).x - (Point.mk 0 1).x)) ∧
      _calculate_rotation_angles 1 2
          ⟨some ⟨0, 0⟩, some ⟨2, 1⟩, some ⟨0, 1⟩, some ⟨3, 2⟩, none⟩ none none =
        _calculate_rotation_angles 55 7
          ⟨some ⟨0, 0⟩, some ⟨2, 1⟩, some ⟨0, 1⟩, some ⟨3, 2⟩, none⟩ none none :=
  rotation_angles_complete 1 2 55 7
    ⟨some ⟨0, 0⟩, some ⟨2, 1⟩, some ⟨0, 1⟩, some ⟨3, 2⟩, none⟩ none none
    ⟨0, 0⟩ ⟨2, 1⟩ ⟨0, 1⟩ ⟨3, 2⟩ rfl rfl rfl rfl

end BiomechanicsAnalyzer

end BaseballTrainer
